import Mathlib

/-!
Verification of the w3eGenWeb terrain codec.

This file gives a shallow embedding of the two core source files of the
repository:

* `BitStream` (src/unnamed/part_000): a bit-level stream over a byte
  buffer, either read-bound (wrapping an existing buffer) or write-bound
  (owning a growable buffer).
* `TerrainUtil.decodeW3e` / `TerrainUtil.encodeW3e` (src/TerrainUtil.ts):
  the codec between a byte buffer and a structured terrain document.

Modelling conventions:

* A byte buffer (`Uint8Array`) is a `List Nat` of bytes.  Entries of a real
  `Uint8Array` are always `< 256`; where a theorem needs that fact it is a
  hypothesis.
* The stream's backing byte buffer is modelled at bit granularity by a
  `List Bool` (`bits`), where bit `i` of the stream is bit `7 - i % 8` of
  byte `i / 8` of the buffer, exactly the addressing used by `readUBits`
  and `writeUBits` in the source.  In write mode the source only ever
  writes at `bitPosition`, which always equals the total number of bits
  written so far, and the pre-allocated growable capacity beyond
  `bitPosition` stays zero-filled and is cut off by `getBuffer`; the
  capacity is therefore not observable and the written bits are modelled
  as an append-only list.  In read mode the source's end-of-buffer test
  `byteIndex >= buffer.length` is exactly `bitPosition >= bits.length`.
* JavaScript numbers holding integer values are `Nat` (or `Int` where the
  source can produce negative values, namely the `Math.round` results fed
  to `writeUInt16`).  JavaScript bitwise operators work on the int32
  truncation of their operands; on the natural-number ranges reachable in
  this codec (all operands below `2 ^ 31`) they agree with the `Nat`
  operations `&&&`, `|||`, `<<<`, `>>>` used here, and `value & 0xFF` /
  `(value >> 8) & 0xFF` on a possibly negative int32 `value` agree with
  the low/high byte of `Int.emod value 65536`, which is how `writeUInt16`
  is rendered below.
* The two float fields `x` and `y` are carried as their 32-bit IEEE-754
  bit patterns (a `Nat`): `writeFloat32`/`readFloat32` in the source move
  the 4-byte little-endian pattern unchanged through `DataView`, so on
  the byte level they behave exactly like the u32 accessors.
* A JavaScript string is a `List Nat` of UTF-16 code units
  (`charCodeAt`); `String.fromCharCode` concatenations become lists of
  code units.
* The unused `changeOffset = false` peek mode of the read accessors is
  not modelled: every read issued by the codec (and every claim) uses the
  default `changeOffset = true`.
-/

namespace W3eGen

/-- Bits of `v` from bit `n - 1` (first) down to bit `0` (last): the order in
which `writeUBits` emits them and `readUBits` consumes them. -/
def natToBits (v : Nat) : Nat → List Bool
  | 0 => []
  | n + 1 => v.testBit n :: natToBits v n

/-- The 8 bits of one byte, most significant first. -/
def byteToBits (b : Nat) : List Bool := natToBits b 8

/-- Concatenation of the images of `f`, in order. -/
def flatList (f : α → List β) : List α → List β
  | [] => []
  | x :: xs => f x ++ flatList f xs

/-- Bit sequence of a byte buffer, in stream order. -/
def bytesToBits (buffer : List Nat) : List Bool := flatList byteToBits buffer

/-- Value of a bit sequence read most-significant-bit first, as accumulated by
the loop of `readUBits`. -/
def bitsVal (l : List Bool) : Nat := l.foldl (fun a b => 2 * a + b.toNat) 0

/-- Pad a bit sequence to 8 bits with trailing zero bits (the untouched,
zero-initialised capacity of the write buffer). -/
def padEight (l : List Bool) : List Bool := l ++ List.replicate (8 - l.length) false

/-- Regroup a bit sequence into bytes, the final partial byte zero-padded in
its low bits, as produced by slicing the write buffer to
`ceil(bitPosition / 8)` bytes in `getBuffer`. -/
def bitsToBytes : List Bool → List Nat
  | [] => []
  | b7 :: b6 :: b5 :: b4 :: b3 :: b2 :: b1 :: b0 :: rest =>
    bitsVal [b7, b6, b5, b4, b3, b2, b1, b0] :: bitsToBytes rest
  | l => [bitsVal (padEight l)]

/-- Errors thrown by the stream layer.  The source throws
`Error("Cannot read in write mode.")`, `Error("Cannot write in read mode.")`
and `Error("Cannot get buffer in read mode.")`; no other error exists in the
stream or codec code. -/
inductive StreamError where
  | readInWriteMode
  | writeInReadMode
  | bufferInReadMode
deriving DecidableEq, Repr

/-- The `BitStream` class: backing bits, bit cursor, and the mode flag fixed
at construction. -/
structure BitStream where
  bits : List Bool
  bitPosition : Nat
  isWriting : Bool
deriving DecidableEq, Repr

/-- Read-bound construction: `new BitStream(buffer)`. -/
def BitStream.ofBuffer (buffer : List Nat) : BitStream :=
  { bits := bytesToBits buffer, bitPosition := 0, isWriting := false }

/-- Write-bound construction: `new BitStream()`.  The 1024-byte
zero-initialised capacity is not observable (see the header comment) and is
elided. -/
def BitStream.newWriter : BitStream :=
  { bits := [], bitPosition := 0, isWriting := true }

/-- The bit-accumulation loop of `readUBits`: for each of `n` iterations,
stop ("break") if the cursor is at or past the end of the buffer, otherwise
shift in the next bit and advance.  Returns the accumulated value and the
final cursor. -/
def readBitsLoop (bits : List Bool) (value pos : Nat) : Nat → Nat × Nat
  | 0 => (value, pos)
  | n + 1 =>
    if pos < bits.length then
      readBitsLoop bits (2 * value + (bits.getD pos false).toNat) (pos + 1) n
    else
      (value, pos)

/-- `readUBits(bits)`: mode check, then the accumulation loop.  Note the
source does not signal reading past the end of the buffer: the loop simply
stops and the partial value is returned. -/
def readUBits (s : BitStream) (n : Nat) : Except StreamError (Nat × BitStream) :=
  if s.isWriting then .error .readInWriteMode
  else
    let r := readBitsLoop s.bits 0 s.bitPosition n
    .ok (r.1, { s with bitPosition := r.2 })

/-- `readUInt8()`. -/
def readUInt8 (s : BitStream) : Except StreamError (Nat × BitStream) :=
  readUBits s 8

/-- `readUInt16()`: two bytes assembled little-endian. -/
def readUInt16 (s : BitStream) : Except StreamError (Nat × BitStream) := do
  let (b0, s1) ← readUBits s 8
  let (b1, s2) ← readUBits s1 8
  .ok (b0 ||| (b1 <<< 8), s2)

/-- `readUInt32()`: four bytes assembled little-endian (the source's trailing
`>>> 0` reinterprets the int32 as unsigned; on `Nat` the assembled value is
already the unsigned value). -/
def readUInt32 (s : BitStream) : Except StreamError (Nat × BitStream) := do
  let (b0, s1) ← readUBits s 8
  let (b1, s2) ← readUBits s1 8
  let (b2, s3) ← readUBits s2 8
  let (b3, s4) ← readUBits s3 8
  .ok (b0 ||| (b1 <<< 8) ||| (b2 <<< 16) ||| (b3 <<< 24), s4)

/-- `readFloat32()`: reads the 4-byte little-endian IEEE-754 bit pattern;
the pattern itself is returned (see the header comment on floats). -/
def readFloat32 (s : BitStream) : Except StreamError (Nat × BitStream) := do
  let (b0, s1) ← readUBits s 8
  let (b1, s2) ← readUBits s1 8
  let (b2, s3) ← readUBits s2 8
  let (b3, s4) ← readUBits s3 8
  .ok (b0 ||| (b1 <<< 8) ||| (b2 <<< 16) ||| (b3 <<< 24), s4)

/-- `readString8()`: one byte, as a one-character string. -/
def readString8 (s : BitStream) : Except StreamError (List Nat × BitStream) := do
  let (c, s1) ← readUBits s 8
  .ok ([c], s1)

/-- `readString32()`: four `readString8` results concatenated. -/
def readString32 (s : BitStream) : Except StreamError (List Nat × BitStream) := do
  let (c0, s1) ← readUBits s 8
  let (c1, s2) ← readUBits s1 8
  let (c2, s3) ← readUBits s2 8
  let (c3, s4) ← readUBits s3 8
  .ok ([c0, c1, c2, c3], s4)

/-- `readString32Array(length)`: `length` tags in sequence.  With
`length = 0` the loop body never runs and no stream operation occurs. -/
def readString32Array : Nat → BitStream → Except StreamError (List (List Nat) × BitStream)
  | 0, s => .ok ([], s)
  | n + 1, s => do
    let (t, s1) ← readString32 s
    let (ts, s2) ← readString32Array n s1
    .ok (t :: ts, s2)

/-- `writeUBits(value, bits)`: `_ensureCapacity` performs the mode check
(throwing in read mode) and guarantees room; the loop then stores bits
`bits - 1` down to `0` of `value` at successive cursor positions. -/
def writeUBits (value n : Nat) (s : BitStream) : Except StreamError BitStream :=
  if s.isWriting then
    .ok { s with bits := s.bits ++ natToBits value n, bitPosition := s.bitPosition + n }
  else
    .error .writeInReadMode

/-- `writeUInt8(value)`. -/
def writeUInt8 (v : Nat) (s : BitStream) : Except StreamError BitStream :=
  writeUBits v 8 s

/-- `writeUInt16(value)`: the source writes `value & 0xFF` then
`(value >> 8) & 0xFF` with int32 semantics, which for any int32 `value`
(including the negative `Math.round` results) are the low and high byte of
`value` modulo `2 ^ 16`. -/
def writeUInt16 (v : Int) (s : BitStream) : Except StreamError BitStream := do
  let w := (v % 65536).toNat
  let s1 ← writeUBits (w % 256) 8 s
  writeUBits (w / 256) 8 s1

/-- `writeUInt32(value)`: four little-endian bytes of `value` modulo
`2 ^ 32`. -/
def writeUInt32 (v : Nat) (s : BitStream) : Except StreamError BitStream := do
  let w := v % 4294967296
  let s1 ← writeUBits (w % 256) 8 s
  let s2 ← writeUBits (w / 256 % 256) 8 s1
  let s3 ← writeUBits (w / 65536 % 256) 8 s2
  writeUBits (w / 16777216) 8 s3

/-- `writeFloat32(value)`: writes the 4-byte little-endian IEEE-754 bit
pattern of the value (carried here as the pattern itself). -/
def writeFloat32 (pattern : Nat) (s : BitStream) : Except StreamError BitStream := do
  let w := pattern % 4294967296
  let s1 ← writeUBits (w % 256) 8 s
  let s2 ← writeUBits (w / 256 % 256) 8 s1
  let s3 ← writeUBits (w / 65536 % 256) 8 s2
  writeUBits (w / 16777216) 8 s3

/-- `writeString8(str)`: one byte, `str.charCodeAt(0) || 0`. -/
def writeString8 (str : List Nat) (s : BitStream) : Except StreamError BitStream :=
  writeUBits (str.getD 0 0) 8 s

/-- `writeString32(str)`: four `writeString8(str[i] || chr(0))` calls. -/
def writeString32 (str : List Nat) (s : BitStream) : Except StreamError BitStream := do
  let s1 ← writeString8 [str.getD 0 0] s
  let s2 ← writeString8 [str.getD 1 0] s1
  let s3 ← writeString8 [str.getD 2 0] s2
  writeString8 [str.getD 3 0] s3

/-- `writeString32Array(arr)`: each tag in order; with an empty array no
stream operation occurs. -/
def writeString32Array : List (List Nat) → BitStream → Except StreamError BitStream
  | [], s => .ok s
  | t :: ts, s => do
    let s1 ← writeString32 t s
    writeString32Array ts s1

/-- `getBuffer()`: mode check, then the buffer sliced to
`ceil(bitPosition / 8)` bytes (in the append model: all written bits
regrouped into bytes, the final partial byte zero-padded). -/
def getBuffer (s : BitStream) : Except StreamError (List Nat) :=
  if s.isWriting then .ok (bitsToBytes s.bits) else .error .bufferInReadMode

/-- One grid-cell record of the terrain document (interface `Corner`). -/
structure Corner where
  index : Nat
  rowid : Nat
  colid : Nat
  groundHeight : ℚ
  waterHeight : ℚ
  mapEdge : Nat
  ramp : Nat
  blight : Nat
  water : Nat
  boundary : Nat
  groundTexture : Nat
  groundVariation : Nat
  cliffVariation : Nat
  cliffTexture : Nat
  layerHeight : Nat
deriving DecidableEq, Repr

attribute [ext] Corner

/-- The header of the terrain document (`W3E.header`); `x`, `y` are
IEEE-754 bit patterns per the header comment. -/
structure Header where
  fileId : List Nat
  version : Nat
  baseTileset : List Nat
  hasCustomTileset : Nat
  tilePaletteCount : Nat
  tilePalette : List (List Nat)
  cliffTilePaletteCount : Nat
  cliffTilePalette : List (List Nat)
  width : Nat
  height : Nat
  x : Nat
  y : Nat
deriving DecidableEq, Repr

/-- The terrain document (interface `W3E`). -/
structure W3E where
  header : Header
  corners : List Corner
deriving DecidableEq, Repr

/-- `Math.round`: round to the nearest integer, ties toward positive
infinity. -/
def jsRound (q : ℚ) : Int := ⌊q + 1 / 2⌋

/-- The corner record built by the loop body of `decodeW3e` for index `i`
from the five values read from the stream: the field unpacking of lines
125-144 of the source. -/
def decCorner (width i gHeight wHeightRaw byte4 byte5 byte6 : Nat) : Corner :=
  { index := i
    rowid := i / width
    colid := i % width
    groundHeight := ((gHeight : ℚ) - 8192) / 4
    waterHeight := (((wHeightRaw &&& 0x3FFF : Nat) : ℚ) - 8192) / 4
    mapEdge := (wHeightRaw &&& 0xC000) >>> 14
    groundTexture := byte4 &&& 0x0F
    ramp := (byte4 &&& 0x10) >>> 4
    water := (byte4 &&& 0x20) >>> 5
    blight := (byte4 &&& 0x40) >>> 6
    boundary := (byte4 &&& 0x80) >>> 7
    groundVariation := byte5 &&& 0x1F
    cliffVariation := (byte5 &&& 0xE0) >>> 5
    cliffTexture := byte6 &&& 0x0F
    layerHeight := (byte6 &&& 0xF0) >>> 4 }

/-- The corner loop of `decodeW3e`: five reads then `decCorner`, for each of
the remaining `n` corners starting at index `i`. -/
def readCornersAux (width : Nat) : Nat → Nat → BitStream → Except StreamError (List Corner × BitStream)
  | _, 0, s => .ok ([], s)
  | i, n + 1, s => do
    let (gHeight, s1) ← readUInt16 s
    let (wHeightRaw, s2) ← readUInt16 s1
    let (byte4, s3) ← readUInt8 s2
    let (byte5, s4) ← readUInt8 s3
    let (byte6, s5) ← readUInt8 s4
    let (rest, s6) ← readCornersAux width (i + 1) n s5
    .ok (decCorner width i gHeight wHeightRaw byte4 byte5 byte6 :: rest, s6)

/-- `TerrainUtil.decodeW3e(buffer)`. -/
def decodeW3e (buffer : List Nat) : Except StreamError W3E := do
  let s := BitStream.ofBuffer buffer
  let (fileId, s1) ← readString32 s
  let (version, s2) ← readUInt32 s1
  let (baseTileset, s3) ← readString8 s2
  let (hasCustomTileset, s4) ← readUInt32 s3
  let (tilePaletteCount, s5) ← readUInt32 s4
  let (tilePalette, s6) ← readString32Array tilePaletteCount s5
  let (cliffTilePaletteCount, s7) ← readUInt32 s6
  let (cliffTilePalette, s8) ← readString32Array cliffTilePaletteCount s7
  let (width, s9) ← readUInt32 s8
  let (height, s10) ← readUInt32 s9
  let (x, s11) ← readFloat32 s10
  let (y, s12) ← readFloat32 s11
  let (corners, _) ← readCornersAux width 0 (width * height) s12
  .ok
    { header :=
        { fileId, version, baseTileset, hasCustomTileset
          tilePaletteCount, tilePalette
          cliffTilePaletteCount, cliffTilePalette
          width, height, x, y }
      corners }

/-- The packed water/edge 16-bit word of `encodeW3e`:
`(Math.round(waterHeight * 4 + 8192) & 0x3FFF) | (mapEdge << 14)`; the int32
`& 0x3FFF` on the possibly negative rounded value is `Int.emod` by
`2 ^ 14`. -/
def wordOf (c : Corner) : Nat :=
  ((jsRound (c.waterHeight * 4 + 8192)) % 16384).toNat ||| (c.mapEdge <<< 14)

/-- Byte 4 of the packed corner record in `encodeW3e`. -/
def byte4Of (c : Corner) : Nat :=
  (c.groundTexture &&& 0x0F) ||| (c.ramp <<< 4) ||| (c.water <<< 5) |||
    (c.blight <<< 6) ||| (c.boundary <<< 7)

/-- Byte 5 of the packed corner record in `encodeW3e`. -/
def byte5Of (c : Corner) : Nat :=
  (c.groundVariation &&& 0x1F) ||| (c.cliffVariation <<< 5)

/-- Byte 6 of the packed corner record in `encodeW3e`. -/
def byte6Of (c : Corner) : Nat :=
  (c.cliffTexture &&& 0x0F) ||| (c.layerHeight <<< 4)

/-- The corner loop body of `encodeW3e`. -/
def writeCorner (c : Corner) (s : BitStream) : Except StreamError BitStream := do
  let s1 ← writeUInt16 (jsRound (c.groundHeight * 4 + 8192)) s
  let s2 ← writeUInt16 (wordOf c : Int) s1
  let s3 ← writeUInt8 (byte4Of c) s2
  let s4 ← writeUInt8 (byte5Of c) s3
  writeUInt8 (byte6Of c) s4

/-- The corner loop of `encodeW3e`. -/
def writeCorners : List Corner → BitStream → Except StreamError BitStream
  | [], s => .ok s
  | c :: cs, s => do
    let s1 ← writeCorner c s
    writeCorners cs s1

/-- `TerrainUtil.encodeW3e(w3e)`. -/
def encodeW3e (w3e : W3E) : Except StreamError (List Nat) := do
  let s := BitStream.newWriter
  let s1 ← writeString32 w3e.header.fileId s
  let s2 ← writeUInt32 w3e.header.version s1
  let s3 ← writeString8 w3e.header.baseTileset s2
  let s4 ← writeUInt32 w3e.header.hasCustomTileset s3
  let s5 ← writeUInt32 w3e.header.tilePaletteCount s4
  let s6 ← writeString32Array w3e.header.tilePalette s5
  let s7 ← writeUInt32 w3e.header.cliffTilePaletteCount s6
  let s8 ← writeString32Array w3e.header.cliffTilePalette s7
  let s9 ← writeUInt32 w3e.header.width s8
  let s10 ← writeUInt32 w3e.header.height s9
  let s11 ← writeFloat32 w3e.header.x s10
  let s12 ← writeFloat32 w3e.header.y s11
  let s13 ← writeCorners w3e.corners s12
  getBuffer s13

/-! ### Infrastructure lemmas on bit sequences -/

theorem flatList_append (f : α → List β) (l1 l2 : List α) :
    flatList f (l1 ++ l2) = flatList f l1 ++ flatList f l2 := by
  induction l1 with
  | nil => rfl
  | cons x xs ih => simp [flatList, ih]

@[simp] theorem natToBits_length (v n : Nat) : (natToBits v n).length = n := by
  induction n with
  | zero => rfl
  | succ n ih => simp [natToBits, ih]

@[simp] theorem byteToBits_length (b : Nat) : (byteToBits b).length = 8 := by
  simp [byteToBits]

theorem bitsVal_foldl (l : List Bool) (a : Nat) :
    l.foldl (fun a b => 2 * a + b.toNat) a = a * 2 ^ l.length + bitsVal l := by
  induction l generalizing a with
  | nil => simp [bitsVal]
  | cons b t ih =>
    simp only [List.foldl_cons, List.length_cons, bitsVal]
    rw [ih, ih (2 * 0 + b.toNat)]
    ring

theorem bitsVal_cons (b : Bool) (t : List Bool) :
    bitsVal (b :: t) = b.toNat * 2 ^ t.length + bitsVal t := by
  have h : bitsVal (b :: t) = t.foldl (fun a b => 2 * a + b.toNat) (2 * 0 + b.toNat) := rfl
  rw [h, bitsVal_foldl]
  norm_num

theorem toNat_testBit (v i : Nat) : (v.testBit i).toNat = v / 2 ^ i % 2 := by
  rw [Nat.testBit_to_div_mod]
  rcases Nat.mod_two_eq_zero_or_one (v / 2 ^ i) with h | h <;> simp [h]

theorem bitsVal_natToBits (v n : Nat) : bitsVal (natToBits v n) = v % 2 ^ n := by
  induction n with
  | zero => simp [natToBits, bitsVal, Nat.mod_one]
  | succ n ih =>
    rw [natToBits, bitsVal_cons, ih, natToBits_length, toNat_testBit,
      pow_succ, Nat.mod_mul]
    ring

theorem natToBits_congr (n : Nat) (v w : Nat)
    (h : ∀ i, i < n → v.testBit i = w.testBit i) :
    natToBits v n = natToBits w n := by
  induction n with
  | zero => rfl
  | succ m ih =>
    simp only [natToBits]
    rw [h m (Nat.lt_succ_self m), ih fun i hi => h i (Nat.lt_succ_of_lt hi)]

theorem natToBits_mod (v n : Nat) : natToBits (v % 2 ^ n) n = natToBits v n := by
  refine natToBits_congr n _ _ fun i hi => ?_
  rw [Nat.testBit_mod_two_pow]
  simp [hi]

theorem padEight_full (l : List Bool) (h : l.length = 8) : padEight l = l := by
  simp [padEight, h]

theorem bitsToBytes_block (l rest : List Bool) (h : l.length = 8) :
    bitsToBytes (l ++ rest) = bitsVal l :: bitsToBytes rest := by
  match l, h with
  | [b7, b6, b5, b4, b3, b2, b1, b0], _ => rfl

theorem bitsToBytes_bytesToBits (L : List Nat) :
    bitsToBytes (bytesToBits L) = L.map (· % 256) := by
  induction L with
  | nil => rfl
  | cons b t ih =>
    have h1 : bytesToBits (b :: t) = byteToBits b ++ bytesToBits t := rfl
    rw [h1, bitsToBytes_block _ _ (byteToBits_length b), ih]
    have hv : bitsVal (byteToBits b) = b % 256 := bitsVal_natToBits b 8
    rw [hv, List.map_cons]

theorem bitsToBytes_bytesToBits_of_lt (L : List Nat) (h : ∀ b ∈ L, b < 256) :
    bitsToBytes (bytesToBits L) = L := by
  rw [bitsToBytes_bytesToBits]
  induction L with
  | nil => rfl
  | cons b t ih =>
    simp only [List.map_cons]
    rw [Nat.mod_eq_of_lt (h b (List.mem_cons_self b t)),
      ih fun x hx => h x (List.mem_cons_of_mem b hx)]

/-! ### Bitwise arithmetic kit -/

theorem lor_high (k a b : Nat) (ha : a < 2 ^ k) : a ||| (b <<< k) = a + 2 ^ k * b := by
  calc a ||| b <<< k = 2 ^ k * b ||| a := by
        rw [Nat.shiftLeft_eq, Nat.lor_comm, mul_comm]
    _ = 2 ^ k * b + a := (Nat.mul_add_lt_is_or ha b).symm
    _ = a + 2 ^ k * b := Nat.add_comm _ _

theorem mask_extract (n k w : Nat) :
    (n &&& ((2 ^ w - 1) <<< k)) >>> k = n / 2 ^ k % 2 ^ w := by
  have h : n &&& ((2 ^ w - 1) <<< k) = (n / 2 ^ k % 2 ^ w) <<< k := by
    apply Nat.eq_of_testBit_eq
    intro j
    rw [← Nat.shiftRight_eq_div_pow]
    simp only [Nat.testBit_and, Nat.testBit_shiftLeft, Nat.testBit_two_pow_sub_one,
      Nat.testBit_mod_two_pow, Nat.testBit_shiftRight, ge_iff_le]
    by_cases hk : k ≤ j
    · have hkj : k + (j - k) = j := by omega
      simp only [hk, decide_True, Bool.true_and, hkj]
      cases n.testBit j <;> simp
    · simp [hk]
  rw [h, Nat.shiftLeft_eq, Nat.shiftRight_eq_div_pow,
    Nat.mul_div_cancel _ (Nat.pos_pow_of_pos k (by norm_num))]

theorem mask_mod (n w : Nat) : n &&& (2 ^ w - 1) = n % 2 ^ w := by
  have h := mask_extract n 0 w
  simp only [pow_zero, Nat.shiftLeft_zero, Nat.shiftRight_zero, Nat.div_one] at h
  exact h

theorem and15 (n : Nat) : n &&& 15 = n % 16 := by
  have h := mask_mod n 4
  norm_num at h
  exact h

theorem and31 (n : Nat) : n &&& 31 = n % 32 := by
  have h := mask_mod n 5
  norm_num at h
  exact h

theorem and16383 (n : Nat) : n &&& 16383 = n % 16384 := by
  have h := mask_mod n 14
  norm_num at h
  exact h

theorem and16shr4 (n : Nat) : (n &&& 16) >>> 4 = n / 16 % 2 := by
  have h := mask_extract n 4 1
  norm_num at h
  exact h

theorem and32shr5 (n : Nat) : (n &&& 32) >>> 5 = n / 32 % 2 := by
  have h := mask_extract n 5 1
  norm_num at h
  exact h

theorem and64shr6 (n : Nat) : (n &&& 64) >>> 6 = n / 64 % 2 := by
  have h := mask_extract n 6 1
  norm_num at h
  exact h

theorem and128shr7 (n : Nat) : (n &&& 128) >>> 7 = n / 128 % 2 := by
  have h := mask_extract n 7 1
  norm_num at h
  exact h

theorem and224shr5 (n : Nat) : (n &&& 224) >>> 5 = n / 32 % 8 := by
  have h := mask_extract n 5 3
  norm_num at h
  exact h

theorem and240shr4 (n : Nat) : (n &&& 240) >>> 4 = n / 16 % 16 := by
  have h := mask_extract n 4 4
  norm_num at h
  exact h

theorem and49152shr14 (n : Nat) : (n &&& 49152) >>> 14 = n / 16384 % 4 := by
  have h := mask_extract n 14 2
  norm_num at h
  exact h

theorem lor8 (a b : Nat) (ha : a < 256) : a ||| (b <<< 8) = a + 256 * b := by
  have h := lor_high 8 a b (by norm_num [ha])
  norm_num at h
  exact h

theorem lor16 (a b : Nat) (ha : a < 65536) : a ||| (b <<< 16) = a + 65536 * b := by
  have h := lor_high 16 a b (by norm_num [ha])
  norm_num at h
  exact h

theorem lor24 (a b : Nat) (ha : a < 16777216) : a ||| (b <<< 24) = a + 16777216 * b := by
  have h := lor_high 24 a b (by norm_num [ha])
  norm_num at h
  exact h

theorem lor14 (a b : Nat) (ha : a < 16384) : a ||| (b <<< 14) = a + 16384 * b := by
  have h := lor_high 14 a b (by norm_num [ha])
  norm_num at h
  exact h

/-! ### Read-side specifications -/

/-- The stream `s` is read-bound and the bytes still ahead of its cursor are
exactly `l`. -/
def ReadState (s : BitStream) (l : List Nat) : Prop :=
  s.isWriting = false ∧ s.bits.drop s.bitPosition = bytesToBits l

theorem readBitsLoop_spec (bits : List Bool) :
    ∀ (n : Nat) (pre rest : List Bool) (pos value : Nat),
    pre.length = n → bits.drop pos = pre ++ rest →
    readBitsLoop bits value pos n = (value * 2 ^ n + bitsVal pre, pos + n) := by
  intro n
  induction n with
  | zero =>
    intro pre rest pos value hlen _
    have hpre : pre = [] := List.eq_nil_of_length_eq_zero hlen
    subst hpre
    simp [readBitsLoop, bitsVal]
  | succ n ih =>
    intro pre rest pos value hlen hdrop
    match pre, hlen with
    | b :: pre2, hlen =>
      have hlen2 : pre2.length = n := by simpa using hlen
      have hlt : pos < bits.length := by
        by_contra hge
        have : bits.drop pos = [] := List.drop_eq_nil_of_le (by omega)
        simp [this] at hdrop
      have hcons : bits.drop pos = bits[pos] :: bits.drop (pos + 1) :=
        List.drop_eq_getElem_cons hlt
      have hb : bits[pos] = b := by
        rw [hcons] at hdrop
        exact (List.cons.injEq _ _ _ _ ▸ hdrop).1
      have htail : bits.drop (pos + 1) = pre2 ++ rest := by
        rw [hcons] at hdrop
        exact (List.cons.injEq _ _ _ _ ▸ hdrop).2
      have hgetD : bits.getD pos false = b := by
        rw [List.getD_eq_getElem?_getD, List.getElem?_eq_getElem hlt]
        simpa using hb
      rw [readBitsLoop, if_pos hlt, hgetD, ih pre2 rest (pos + 1) _ hlen2 htail,
        bitsVal_cons, hlen2]
      rw [Prod.mk.injEq]
      constructor
      · ring
      · omega

theorem readUBits8_spec (s : BitStream) (b : Nat) (l : List Nat)
    (h : ReadState s (b :: l)) :
    readUBits s 8 =
      .ok (b % 256, { s with bitPosition := s.bitPosition + 8 }) ∧
    ReadState { s with bitPosition := s.bitPosition + 8 } l := by
  obtain ⟨hw, hdrop⟩ := h
  have hsplit : bytesToBits (b :: l) = byteToBits b ++ bytesToBits l := rfl
  rw [hsplit] at hdrop
  have hloop := readBitsLoop_spec s.bits 8 (byteToBits b) (bytesToBits l)
    s.bitPosition 0 (byteToBits_length b) hdrop
  constructor
  · rw [readUBits, if_neg (by simp [hw]), hloop]
    simp [bitsVal_natToBits b 8, byteToBits]
  · refine ⟨hw, ?_⟩
    have h8 : (byteToBits b).length = 8 := byteToBits_length b
    calc s.bits.drop (s.bitPosition + 8)
        = (s.bits.drop s.bitPosition).drop 8 := (List.drop_drop 8 s.bitPosition s.bits).symm
      _ = bytesToBits l := by rw [hdrop, ← h8, List.drop_left]

theorem readUInt8_spec (s : BitStream) (b : Nat) (l : List Nat)
    (h : ReadState s (b :: l)) :
    ∃ s2, readUInt8 s = .ok (b % 256, s2) ∧ ReadState s2 l := by
  obtain ⟨h1, h2⟩ := readUBits8_spec s b l h
  exact ⟨_, h1, h2⟩

theorem readUInt16_spec (s : BitStream) (b0 b1 : Nat) (l : List Nat)
    (h : ReadState s (b0 :: b1 :: l)) (hb0 : b0 < 256) :
    ∃ s2, readUInt16 s = .ok (b0 + 256 * (b1 % 256), s2) ∧ ReadState s2 l := by
  obtain ⟨e0, h0⟩ := readUBits8_spec s b0 (b1 :: l) h
  obtain ⟨e1, h1⟩ := readUBits8_spec _ b1 l h0
  refine ⟨_, ?_, h1⟩
  rw [readUInt16, e0]
  show (readUBits _ 8 >>= _) = _
  rw [e1]
  show Except.ok (b0 % 256 ||| (b1 % 256) <<< 8, _) = _
  rw [Nat.mod_eq_of_lt hb0, lor8 b0 (b1 % 256) hb0]

theorem readUInt32_spec (s : BitStream) (b0 b1 b2 b3 : Nat) (l : List Nat)
    (h : ReadState s (b0 :: b1 :: b2 :: b3 :: l))
    (hb0 : b0 < 256) (hb1 : b1 < 256) (hb2 : b2 < 256) :
    ∃ s2, readUInt32 s =
      .ok (b0 + 256 * b1 + 65536 * b2 + 16777216 * (b3 % 256), s2) ∧
      ReadState s2 l := by
  obtain ⟨e0, h0⟩ := readUBits8_spec s b0 (b1 :: b2 :: b3 :: l) h
  obtain ⟨e1, h1⟩ := readUBits8_spec _ b1 (b2 :: b3 :: l) h0
  obtain ⟨e2, h2⟩ := readUBits8_spec _ b2 (b3 :: l) h1
  obtain ⟨e3, h3⟩ := readUBits8_spec _ b3 l h2
  refine ⟨_, ?_, h3⟩
  rw [readUInt32, e0]
  show (readUBits _ 8 >>= _) = _
  rw [e1]
  show (readUBits _ 8 >>= _) = _
  rw [e2]
  show (readUBits _ 8 >>= _) = _
  rw [e3]
  show Except.ok (b0 % 256 ||| (b1 % 256) <<< 8 ||| (b2 % 256) <<< 16 ||| (b3 % 256) <<< 24, _) = _
  rw [Nat.mod_eq_of_lt hb0, Nat.mod_eq_of_lt hb1, Nat.mod_eq_of_lt hb2]
  rw [lor8 b0 b1 hb0, lor16 _ b2 (by omega), lor24 _ (b3 % 256) (by omega)]

theorem readFloat32_spec (s : BitStream) (b0 b1 b2 b3 : Nat) (l : List Nat)
    (h : ReadState s (b0 :: b1 :: b2 :: b3 :: l))
    (hb0 : b0 < 256) (hb1 : b1 < 256) (hb2 : b2 < 256) :
    ∃ s2, readFloat32 s =
      .ok (b0 + 256 * b1 + 65536 * b2 + 16777216 * (b3 % 256), s2) ∧
      ReadState s2 l := by
  obtain ⟨e0, h0⟩ := readUBits8_spec s b0 (b1 :: b2 :: b3 :: l) h
  obtain ⟨e1, h1⟩ := readUBits8_spec _ b1 (b2 :: b3 :: l) h0
  obtain ⟨e2, h2⟩ := readUBits8_spec _ b2 (b3 :: l) h1
  obtain ⟨e3, h3⟩ := readUBits8_spec _ b3 l h2
  refine ⟨_, ?_, h3⟩
  rw [readFloat32, e0]
  show (readUBits _ 8 >>= _) = _
  rw [e1]
  show (readUBits _ 8 >>= _) = _
  rw [e2]
  show (readUBits _ 8 >>= _) = _
  rw [e3]
  show Except.ok (b0 % 256 ||| (b1 % 256) <<< 8 ||| (b2 % 256) <<< 16 ||| (b3 % 256) <<< 24, _) = _
  rw [Nat.mod_eq_of_lt hb0, Nat.mod_eq_of_lt hb1, Nat.mod_eq_of_lt hb2]
  rw [lor8 b0 b1 hb0, lor16 _ b2 (by omega), lor24 _ (b3 % 256) (by omega)]

theorem readString8_spec (s : BitStream) (b : Nat) (l : List Nat)
    (h : ReadState s (b :: l)) :
    ∃ s2, readString8 s = .ok ([b % 256], s2) ∧ ReadState s2 l := by
  obtain ⟨e0, h0⟩ := readUBits8_spec s b l h
  refine ⟨_, ?_, h0⟩
  rw [readString8, e0]
  rfl

theorem readString32_spec (s : BitStream) (b0 b1 b2 b3 : Nat) (l : List Nat)
    (h : ReadState s (b0 :: b1 :: b2 :: b3 :: l)) :
    ∃ s2, readString32 s = .ok ([b0 % 256, b1 % 256, b2 % 256, b3 % 256], s2) ∧
      ReadState s2 l := by
  obtain ⟨e0, h0⟩ := readUBits8_spec s b0 (b1 :: b2 :: b3 :: l) h
  obtain ⟨e1, h1⟩ := readUBits8_spec _ b1 (b2 :: b3 :: l) h0
  obtain ⟨e2, h2⟩ := readUBits8_spec _ b2 (b3 :: l) h1
  obtain ⟨e3, h3⟩ := readUBits8_spec _ b3 l h2
  refine ⟨_, ?_, h3⟩
  rw [readString32, e0]
  show (readUBits _ 8 >>= _) = _
  rw [e1]
  show (readUBits _ 8 >>= _) = _
  rw [e2]
  show (readUBits _ 8 >>= _) = _
  rw [e3]
  rfl

/-! ### Pure byte-level description of the encoder output -/

/-- The two bytes appended by `writeUInt16`. -/
def encU16 (v : Int) : List Nat :=
  [(v % 65536).toNat % 256, (v % 65536).toNat / 256]

/-- The four bytes appended by `writeUInt32` (and `writeFloat32`). -/
def encU32 (v : Nat) : List Nat :=
  [v % 4294967296 % 256, v % 4294967296 / 256 % 256,
    v % 4294967296 / 65536 % 256, v % 4294967296 / 16777216]

/-- The four bytes appended by `writeString32`. -/
def encTag (t : List Nat) : List Nat :=
  [t.getD 0 0 % 256, t.getD 1 0 % 256, t.getD 2 0 % 256, t.getD 3 0 % 256]

/-- The seven bytes appended per corner by the loop of `encodeW3e`. -/
def encCornerBytes (c : Corner) : List Nat :=
  encU16 (jsRound (c.groundHeight * 4 + 8192)) ++ encU16 (wordOf c) ++
    [byte4Of c % 256, byte5Of c % 256, byte6Of c % 256]

/-- The full byte output of `encodeW3e`. -/
def encBytes (d : W3E) : List Nat :=
  encTag d.header.fileId ++ encU32 d.header.version ++
    [d.header.baseTileset.getD 0 0 % 256] ++ encU32 d.header.hasCustomTileset ++
    encU32 d.header.tilePaletteCount ++ flatList encTag d.header.tilePalette ++
    encU32 d.header.cliffTilePaletteCount ++ flatList encTag d.header.cliffTilePalette ++
    encU32 d.header.width ++ encU32 d.header.height ++
    encU32 d.header.x ++ encU32 d.header.y ++ flatList encCornerBytes d.corners

/-! ### Write-side specifications -/

/-- The stream `s` is write-bound and the bytes written so far are exactly
`L`. -/
def WriteState (s : BitStream) (L : List Nat) : Prop :=
  s.isWriting = true ∧ s.bits = bytesToBits L

theorem writeUBits8_spec (v : Nat) (s : BitStream) (L : List Nat)
    (h : WriteState s L) :
    ∃ s2, writeUBits v 8 s = .ok s2 ∧ WriteState s2 (L ++ [v % 256]) := by
  obtain ⟨hw, hbits⟩ := h
  refine ⟨{ s with bits := s.bits ++ natToBits v 8, bitPosition := s.bitPosition + 8 }, ?_, hw, ?_⟩
  · rw [writeUBits, if_pos (by simp [hw])]
  · show s.bits ++ natToBits v 8 = bytesToBits (L ++ [v % 256])
    have h8 : natToBits v 8 = byteToBits (v % 256) := by
      rw [byteToBits, ← natToBits_mod v 8]
      norm_num
    rw [hbits, bytesToBits, bytesToBits, flatList_append, h8]
    simp [flatList]

theorem writeUInt8_spec (v : Nat) (s : BitStream) (L : List Nat)
    (h : WriteState s L) :
    ∃ s2, writeUInt8 v s = .ok s2 ∧ WriteState s2 (L ++ [v % 256]) :=
  writeUBits8_spec v s L h

theorem writeUInt16_spec (v : Int) (s : BitStream) (L : List Nat)
    (h : WriteState s L) :
    ∃ s2, writeUInt16 v s = .ok s2 ∧ WriteState s2 (L ++ encU16 v) := by
  have hwlt : (v % 65536).toNat < 65536 := by
    have h1 : v % 65536 < 65536 := Int.emod_lt_of_pos v (by norm_num)
    omega
  obtain ⟨s1, e1, h1⟩ := writeUBits8_spec ((v % 65536).toNat % 256) s L h
  obtain ⟨s2, e2, h2⟩ := writeUBits8_spec ((v % 65536).toNat / 256) s1 _ h1
  refine ⟨s2, ?_, ?_⟩
  · rw [writeUInt16, e1]
    show writeUBits _ 8 s1 = _
    exact e2
  · have hmod : (v % 65536).toNat % 256 % 256 = (v % 65536).toNat % 256 :=
      Nat.mod_mod_of_dvd _ dvd_rfl
    have hdiv : (v % 65536).toNat / 256 % 256 = (v % 65536).toNat / 256 :=
      Nat.mod_eq_of_lt (by omega)
    rw [hmod, hdiv] at h2
    rw [encU16, show L ++ [(v % 65536).toNat % 256, (v % 65536).toNat / 256]
      = (L ++ [(v % 65536).toNat % 256]) ++ [(v % 65536).toNat / 256] by simp]
    exact h2

theorem writeUInt32_spec (v : Nat) (s : BitStream) (L : List Nat)
    (h : WriteState s L) :
    ∃ s2, writeUInt32 v s = .ok s2 ∧ WriteState s2 (L ++ encU32 v) := by
  have hw : v % 4294967296 < 4294967296 := Nat.mod_lt _ (by norm_num)
  obtain ⟨s1, e1, h1⟩ := writeUBits8_spec (v % 4294967296 % 256) s L h
  obtain ⟨s2, e2, h2⟩ := writeUBits8_spec (v % 4294967296 / 256 % 256) s1 _ h1
  obtain ⟨s3, e3, h3⟩ := writeUBits8_spec (v % 4294967296 / 65536 % 256) s2 _ h2
  obtain ⟨s4, e4, h4⟩ := writeUBits8_spec (v % 4294967296 / 16777216) s3 _ h3
  refine ⟨s4, ?_, ?_⟩
  · rw [writeUInt32, e1]
    show (writeUBits _ 8 s1 >>= _) = _
    rw [e2]
    show (writeUBits _ 8 s2 >>= _) = _
    rw [e3]
    show writeUBits _ 8 s3 = _
    exact e4
  · have m1 : v % 4294967296 % 256 % 256 = v % 4294967296 % 256 :=
      Nat.mod_mod_of_dvd _ dvd_rfl
    have m2 : v % 4294967296 / 256 % 256 % 256 = v % 4294967296 / 256 % 256 :=
      Nat.mod_mod_of_dvd _ dvd_rfl
    have m3 : v % 4294967296 / 65536 % 256 % 256 = v % 4294967296 / 65536 % 256 :=
      Nat.mod_mod_of_dvd _ dvd_rfl
    have m4 : v % 4294967296 / 16777216 % 256 = v % 4294967296 / 16777216 :=
      Nat.mod_eq_of_lt (by omega)
    rw [m1, m2, m3, m4] at h4
    rw [encU32, show L ++ [v % 4294967296 % 256, v % 4294967296 / 256 % 256,
        v % 4294967296 / 65536 % 256, v % 4294967296 / 16777216]
      = (((L ++ [v % 4294967296 % 256]) ++ [v % 4294967296 / 256 % 256])
        ++ [v % 4294967296 / 65536 % 256]) ++ [v % 4294967296 / 16777216] by simp]
    exact h4

theorem writeFloat32_spec (v : Nat) (s : BitStream) (L : List Nat)
    (h : WriteState s L) :
    ∃ s2, writeFloat32 v s = .ok s2 ∧ WriteState s2 (L ++ encU32 v) := by
  have hw : v % 4294967296 < 4294967296 := Nat.mod_lt _ (by norm_num)
  obtain ⟨s1, e1, h1⟩ := writeUBits8_spec (v % 4294967296 % 256) s L h
  obtain ⟨s2, e2, h2⟩ := writeUBits8_spec (v % 4294967296 / 256 % 256) s1 _ h1
  obtain ⟨s3, e3, h3⟩ := writeUBits8_spec (v % 4294967296 / 65536 % 256) s2 _ h2
  obtain ⟨s4, e4, h4⟩ := writeUBits8_spec (v % 4294967296 / 16777216) s3 _ h3
  refine ⟨s4, ?_, ?_⟩
  · rw [writeFloat32, e1]
    show (writeUBits _ 8 s1 >>= _) = _
    rw [e2]
    show (writeUBits _ 8 s2 >>= _) = _
    rw [e3]
    show writeUBits _ 8 s3 = _
    exact e4
  · have m1 : v % 4294967296 % 256 % 256 = v % 4294967296 % 256 :=
      Nat.mod_mod_of_dvd _ dvd_rfl
    have m2 : v % 4294967296 / 256 % 256 % 256 = v % 4294967296 / 256 % 256 :=
      Nat.mod_mod_of_dvd _ dvd_rfl
    have m3 : v % 4294967296 / 65536 % 256 % 256 = v % 4294967296 / 65536 % 256 :=
      Nat.mod_mod_of_dvd _ dvd_rfl
    have m4 : v % 4294967296 / 16777216 % 256 = v % 4294967296 / 16777216 :=
      Nat.mod_eq_of_lt (by omega)
    rw [m1, m2, m3, m4] at h4
    rw [encU32, show L ++ [v % 4294967296 % 256, v % 4294967296 / 256 % 256,
        v % 4294967296 / 65536 % 256, v % 4294967296 / 16777216]
      = (((L ++ [v % 4294967296 % 256]) ++ [v % 4294967296 / 256 % 256])
        ++ [v % 4294967296 / 65536 % 256]) ++ [v % 4294967296 / 16777216] by simp]
    exact h4

theorem writeString8_spec (t : List Nat) (s : BitStream) (L : List Nat)
    (h : WriteState s L) :
    ∃ s2, writeString8 t s = .ok s2 ∧ WriteState s2 (L ++ [t.getD 0 0 % 256]) :=
  writeUBits8_spec (t.getD 0 0) s L h

theorem writeString32_spec (t : List Nat) (s : BitStream) (L : List Nat)
    (h : WriteState s L) :
    ∃ s2, writeString32 t s = .ok s2 ∧ WriteState s2 (L ++ encTag t) := by
  obtain ⟨s1, e1, h1⟩ := writeUBits8_spec (t.getD 0 0) s L h
  obtain ⟨s2, e2, h2⟩ := writeUBits8_spec (t.getD 1 0) s1 _ h1
  obtain ⟨s3, e3, h3⟩ := writeUBits8_spec (t.getD 2 0) s2 _ h2
  obtain ⟨s4, e4, h4⟩ := writeUBits8_spec (t.getD 3 0) s3 _ h3
  refine ⟨s4, ?_, ?_⟩
  · rw [writeString32]
    show (writeString8 _ s >>= _) = _
    rw [show writeString8 [t.getD 0 0] s = writeUBits (t.getD 0 0) 8 s from rfl, e1]
    show (writeString8 _ s1 >>= _) = _
    rw [show writeString8 [t.getD 1 0] s1 = writeUBits (t.getD 1 0) 8 s1 from rfl, e2]
    show (writeString8 _ s2 >>= _) = _
    rw [show writeString8 [t.getD 2 0] s2 = writeUBits (t.getD 2 0) 8 s2 from rfl, e3]
    show writeString8 [t.getD 3 0] s3 = _
    rw [show writeString8 [t.getD 3 0] s3 = writeUBits (t.getD 3 0) 8 s3 from rfl]
    exact e4
  · rw [encTag, show L ++ [t.getD 0 0 % 256, t.getD 1 0 % 256, t.getD 2 0 % 256,
        t.getD 3 0 % 256]
      = (((L ++ [t.getD 0 0 % 256]) ++ [t.getD 1 0 % 256]) ++ [t.getD 2 0 % 256])
        ++ [t.getD 3 0 % 256] by simp]
    exact h4

theorem writeString32Array_spec (ts : List (List Nat)) :
    ∀ (s : BitStream) (L : List Nat), WriteState s L →
    ∃ s2, writeString32Array ts s = .ok s2 ∧ WriteState s2 (L ++ flatList encTag ts) := by
  induction ts with
  | nil =>
    intro s L h
    refine ⟨s, rfl, ?_⟩
    simpa [flatList] using h
  | cons t ts ih =>
    intro s L h
    obtain ⟨s1, e1, h1⟩ := writeString32_spec t s L h
    obtain ⟨s2, e2, h2⟩ := ih s1 _ h1
    refine ⟨s2, ?_, ?_⟩
    · rw [writeString32Array, e1]
      show writeString32Array ts s1 = _
      exact e2
    · rw [show L ++ flatList encTag (t :: ts) = (L ++ encTag t) ++ flatList encTag ts by
        simp [flatList]]
      exact h2

theorem writeCorner_spec (c : Corner) (s : BitStream) (L : List Nat)
    (h : WriteState s L) :
    ∃ s2, writeCorner c s = .ok s2 ∧ WriteState s2 (L ++ encCornerBytes c) := by
  obtain ⟨s1, e1, h1⟩ := writeUInt16_spec (jsRound (c.groundHeight * 4 + 8192)) s L h
  obtain ⟨s2, e2, h2⟩ := writeUInt16_spec (wordOf c : Int) s1 _ h1
  obtain ⟨s3, e3, h3⟩ := writeUInt8_spec (byte4Of c) s2 _ h2
  obtain ⟨s4, e4, h4⟩ := writeUInt8_spec (byte5Of c) s3 _ h3
  obtain ⟨s5, e5, h5⟩ := writeUInt8_spec (byte6Of c) s4 _ h4
  refine ⟨s5, ?_, ?_⟩
  · rw [writeCorner, e1]
    show (writeUInt16 _ s1 >>= _) = _
    rw [e2]
    show (writeUInt8 _ s2 >>= _) = _
    rw [e3]
    show (writeUInt8 _ s3 >>= _) = _
    rw [e4]
    show writeUInt8 _ s4 = _
    exact e5
  · rw [show L ++ encCornerBytes c
      = ((((L ++ encU16 (jsRound (c.groundHeight * 4 + 8192))) ++ encU16 (wordOf c))
        ++ [byte4Of c % 256]) ++ [byte5Of c % 256]) ++ [byte6Of c % 256] by
        simp [encCornerBytes]]
    exact h5

theorem writeCorners_spec (cs : List Corner) :
    ∀ (s : BitStream) (L : List Nat), WriteState s L →
    ∃ s2, writeCorners cs s = .ok s2 ∧
      WriteState s2 (L ++ flatList encCornerBytes cs) := by
  induction cs with
  | nil =>
    intro s L h
    refine ⟨s, rfl, ?_⟩
    simpa [flatList] using h
  | cons c cs ih =>
    intro s L h
    obtain ⟨s1, e1, h1⟩ := writeCorner_spec c s L h
    obtain ⟨s2, e2, h2⟩ := ih s1 _ h1
    refine ⟨s2, ?_, ?_⟩
    · rw [writeCorners, e1]
      show writeCorners cs s1 = _
      exact e2
    · rw [show L ++ flatList encCornerBytes (c :: cs)
        = (L ++ encCornerBytes c) ++ flatList encCornerBytes cs by simp [flatList]]
      exact h2

/-! ### The encoder always succeeds and produces exactly `encBytes` -/

theorem mem_flatList {f : α → List β} {l : List α} {b : β}
    (h : b ∈ flatList f l) : ∃ x ∈ l, b ∈ f x := by
  induction l with
  | nil => simp [flatList] at h
  | cons x xs ih =>
    rw [flatList, List.mem_append] at h
    rcases h with h | h
    · exact ⟨x, List.mem_cons_self x xs, h⟩
    · obtain ⟨y, hy, hb⟩ := ih h
      exact ⟨y, List.mem_cons_of_mem x hy, hb⟩

theorem encU16_lt (v : Int) : ∀ b ∈ encU16 v, b < 256 := by
  intro b hb
  have hwlt : (v % 65536).toNat < 65536 := by
    have h1 : v % 65536 < 65536 := Int.emod_lt_of_pos v (by norm_num)
    omega
  simp only [encU16, List.mem_cons, List.not_mem_nil, or_false] at hb
  rcases hb with h | h <;> omega

theorem encU32_lt (v : Nat) : ∀ b ∈ encU32 v, b < 256 := by
  intro b hb
  have hw : v % 4294967296 < 4294967296 := Nat.mod_lt _ (by norm_num)
  simp only [encU32, List.mem_cons, List.not_mem_nil, or_false] at hb
  rcases hb with h | h | h | h <;> omega

theorem encTag_lt (t : List Nat) : ∀ b ∈ encTag t, b < 256 := by
  intro b hb
  simp only [encTag, List.mem_cons, List.not_mem_nil, or_false] at hb
  rcases hb with h | h | h | h <;> omega

theorem encCornerBytes_lt (c : Corner) : ∀ b ∈ encCornerBytes c, b < 256 := by
  intro b hb
  simp only [encCornerBytes, List.mem_append, List.mem_cons, List.not_mem_nil,
    or_false] at hb
  rcases hb with (h | h) | h | h | h
  · exact encU16_lt _ b h
  · exact encU16_lt _ b h
  · omega
  · omega
  · omega

theorem append_lt {l1 l2 : List Nat} (h1 : ∀ b ∈ l1, b < 256)
    (h2 : ∀ b ∈ l2, b < 256) : ∀ b ∈ l1 ++ l2, b < 256 := by
  intro b hb
  rcases List.mem_append.mp hb with h | h
  · exact h1 b h
  · exact h2 b h

theorem flatList_lt {f : α → List Nat} {l : List α}
    (h : ∀ x, ∀ b ∈ f x, b < 256) : ∀ b ∈ flatList f l, b < 256 := by
  intro b hb
  obtain ⟨x, _, hbx⟩ := mem_flatList hb
  exact h x b hbx

theorem encBytes_lt (d : W3E) : ∀ b ∈ encBytes d, b < 256 := by
  show ∀ b ∈ encBytes d, b < 256
  unfold encBytes
  repeat' apply append_lt
  all_goals
    first
    | exact encTag_lt _
    | exact encU32_lt _
    | exact flatList_lt fun t => encTag_lt t
    | exact flatList_lt fun c => encCornerBytes_lt c
    | intro b hb
  all_goals simp only [List.mem_singleton] at hb
  all_goals omega

theorem encodeW3e_eq (d : W3E) : encodeW3e d = .ok (encBytes d) := by
  have h0 : WriteState BitStream.newWriter [] := ⟨rfl, rfl⟩
  obtain ⟨s1, e1, h1⟩ := writeString32_spec d.header.fileId _ [] h0
  obtain ⟨s2, e2, h2⟩ := writeUInt32_spec d.header.version s1 _ h1
  obtain ⟨s3, e3, h3⟩ := writeString8_spec d.header.baseTileset s2 _ h2
  obtain ⟨s4, e4, h4⟩ := writeUInt32_spec d.header.hasCustomTileset s3 _ h3
  obtain ⟨s5, e5, h5⟩ := writeUInt32_spec d.header.tilePaletteCount s4 _ h4
  obtain ⟨s6, e6, h6⟩ := writeString32Array_spec d.header.tilePalette s5 _ h5
  obtain ⟨s7, e7, h7⟩ := writeUInt32_spec d.header.cliffTilePaletteCount s6 _ h6
  obtain ⟨s8, e8, h8⟩ := writeString32Array_spec d.header.cliffTilePalette s7 _ h7
  obtain ⟨s9, e9, h9⟩ := writeUInt32_spec d.header.width s8 _ h8
  obtain ⟨s10, e10, h10⟩ := writeUInt32_spec d.header.height s9 _ h9
  obtain ⟨s11, e11, h11⟩ := writeFloat32_spec d.header.x s10 _ h10
  obtain ⟨s12, e12, h12⟩ := writeFloat32_spec d.header.y s11 _ h11
  obtain ⟨s13, e13, h13⟩ := writeCorners_spec d.corners s12 _ h12
  have hL : ([] : List Nat) ++ encTag d.header.fileId ++ encU32 d.header.version ++
      [d.header.baseTileset.getD 0 0 % 256] ++ encU32 d.header.hasCustomTileset ++
      encU32 d.header.tilePaletteCount ++ flatList encTag d.header.tilePalette ++
      encU32 d.header.cliffTilePaletteCount ++ flatList encTag d.header.cliffTilePalette ++
      encU32 d.header.width ++ encU32 d.header.height ++
      encU32 d.header.x ++ encU32 d.header.y ++ flatList encCornerBytes d.corners
      = encBytes d := by
    simp [encBytes]
  rw [hL] at h13
  rw [encodeW3e, e1]
  show (writeUInt32 _ s1 >>= _) = _
  rw [e2]
  show (writeString8 _ s2 >>= _) = _
  rw [e3]
  show (writeUInt32 _ s3 >>= _) = _
  rw [e4]
  show (writeUInt32 _ s4 >>= _) = _
  rw [e5]
  show (writeString32Array _ s5 >>= _) = _
  rw [e6]
  show (writeUInt32 _ s6 >>= _) = _
  rw [e7]
  show (writeString32Array _ s7 >>= _) = _
  rw [e8]
  show (writeUInt32 _ s8 >>= _) = _
  rw [e9]
  show (writeUInt32 _ s9 >>= _) = _
  rw [e10]
  show (writeFloat32 _ s10 >>= _) = _
  rw [e11]
  show (writeFloat32 _ s11 >>= _) = _
  rw [e12]
  show (writeCorners _ s12 >>= _) = _
  rw [e13]
  show getBuffer s13 = _
  obtain ⟨hw13, hbits13⟩ := h13
  rw [getBuffer, if_pos (by simp [hw13]), hbits13,
    bitsToBytes_bytesToBits_of_lt _ (encBytes_lt d)]

/-! ### Decoding the encoder's output -/

theorem lor4 (a b : Nat) (ha : a < 16) : a ||| (b <<< 4) = a + 16 * b := by
  have h := lor_high 4 a b (by norm_num [ha])
  norm_num at h
  exact h

theorem lor5 (a b : Nat) (ha : a < 32) : a ||| (b <<< 5) = a + 32 * b := by
  have h := lor_high 5 a b (by norm_num [ha])
  norm_num at h
  exact h

theorem lor6 (a b : Nat) (ha : a < 64) : a ||| (b <<< 6) = a + 64 * b := by
  have h := lor_high 6 a b (by norm_num [ha])
  norm_num at h
  exact h

theorem lor7 (a b : Nat) (ha : a < 128) : a ||| (b <<< 7) = a + 128 * b := by
  have h := lor_high 7 a b (by norm_num [ha])
  norm_num at h
  exact h

theorem jsRound_intCast (g : Int) : jsRound ((g : ℚ)) = g := by
  have h : ((g : ℚ) + 1 / 2) = (1 / 2 + (g : ℤ) : ℚ) := by ring
  rw [jsRound, h, Int.floor_add_int]
  norm_num

theorem jsRound_natCast (g : Nat) : jsRound ((g : ℚ)) = g := by
  have h : ((g : ℚ)) = ((g : ℤ) : ℚ) := by norm_cast
  rw [h, jsRound_intCast]

theorem jsRound_fixed (g : Nat) : jsRound (((g : ℚ) - 8192) / 4 * 4 + 8192) = g := by
  have h : (((g : ℚ) - 8192) / 4 * 4 + 8192) = ((g : ℚ)) := by ring
  rw [h, jsRound_natCast]

theorem readUInt16_enc_spec (v : Int) (s : BitStream) (l : List Nat)
    (h : ReadState s (encU16 v ++ l)) :
    ∃ s2, readUInt16 s = .ok ((v % 65536).toNat, s2) ∧ ReadState s2 l := by
  have hwlt : (v % 65536).toNat < 65536 := by
    have h1 : v % 65536 < 65536 := Int.emod_lt_of_pos v (by norm_num)
    omega
  obtain ⟨s2, e2, h2⟩ := readUInt16_spec s ((v % 65536).toNat % 256)
    ((v % 65536).toNat / 256) l h (by omega)
  refine ⟨s2, ?_, h2⟩
  rw [e2]
  congr 1
  rw [Prod.mk.injEq]
  refine ⟨?_, rfl⟩
  omega

theorem readUInt32_enc_spec (v : Nat) (s : BitStream) (l : List Nat)
    (h : ReadState s (encU32 v ++ l)) :
    ∃ s2, readUInt32 s = .ok (v % 4294967296, s2) ∧ ReadState s2 l := by
  have hw : v % 4294967296 < 4294967296 := Nat.mod_lt _ (by norm_num)
  obtain ⟨s2, e2, h2⟩ := readUInt32_spec s (v % 4294967296 % 256)
    (v % 4294967296 / 256 % 256) (v % 4294967296 / 65536 % 256)
    (v % 4294967296 / 16777216) l h (by omega) (by omega) (by omega)
  refine ⟨s2, ?_, h2⟩
  rw [e2]
  congr 1
  rw [Prod.mk.injEq]
  refine ⟨?_, rfl⟩
  omega

theorem readFloat32_enc_spec (v : Nat) (s : BitStream) (l : List Nat)
    (h : ReadState s (encU32 v ++ l)) :
    ∃ s2, readFloat32 s = .ok (v % 4294967296, s2) ∧ ReadState s2 l := by
  have hw : v % 4294967296 < 4294967296 := Nat.mod_lt _ (by norm_num)
  obtain ⟨s2, e2, h2⟩ := readFloat32_spec s (v % 4294967296 % 256)
    (v % 4294967296 / 256 % 256) (v % 4294967296 / 65536 % 256)
    (v % 4294967296 / 16777216) l h (by omega) (by omega) (by omega)
  refine ⟨s2, ?_, h2⟩
  rw [e2]
  congr 1
  rw [Prod.mk.injEq]
  refine ⟨?_, rfl⟩
  omega

/-- A well-formed 4-character tag: length 4 and single-byte character
codes. -/
def TagWF (t : List Nat) : Prop := t.length = 4 ∧ ∀ c ∈ t, c < 256

theorem readString32_enc_spec (t : List Nat) (s : BitStream) (l : List Nat)
    (hwf : TagWF t) (h : ReadState s (encTag t ++ l)) :
    ∃ s2, readString32 s = .ok (t, s2) ∧ ReadState s2 l := by
  obtain ⟨hlen, hcodes⟩ := hwf
  match t, hlen with
  | [c0, c1, c2, c3], _ =>
    have h0 : c0 < 256 := hcodes c0 (by simp)
    have h1 : c1 < 256 := hcodes c1 (by simp)
    have h2 : c2 < 256 := hcodes c2 (by simp)
    have h3 : c3 < 256 := hcodes c3 (by simp)
    have henc : encTag [c0, c1, c2, c3] = [c0 % 256, c1 % 256, c2 % 256, c3 % 256] := rfl
    rw [henc] at h
    obtain ⟨s2, e2, hs2⟩ := readString32_spec s (c0 % 256) (c1 % 256) (c2 % 256)
      (c3 % 256) l h
    refine ⟨s2, ?_, hs2⟩
    rw [e2]
    congr 2
    simp [Nat.mod_mod_of_dvd, Nat.mod_eq_of_lt h0, Nat.mod_eq_of_lt h1,
      Nat.mod_eq_of_lt h2, Nat.mod_eq_of_lt h3]

theorem readString32Array_enc_spec (ts : List (List Nat)) :
    ∀ (s : BitStream) (l : List Nat), (∀ t ∈ ts, TagWF t) →
    ReadState s (flatList encTag ts ++ l) →
    ∃ s2, readString32Array ts.length s = .ok (ts, s2) ∧ ReadState s2 l := by
  induction ts with
  | nil =>
    intro s l _ h
    refine ⟨s, rfl, ?_⟩
    simpa [flatList] using h
  | cons t ts ih =>
    intro s l hwf h
    have hsh : flatList encTag (t :: ts) ++ l = encTag t ++ (flatList encTag ts ++ l) := by
      simp [flatList]
    rw [hsh] at h
    obtain ⟨s1, e1, h1⟩ := readString32_enc_spec t s _ (hwf t (by simp)) h
    obtain ⟨s2, e2, h2⟩ := ih s1 l (fun u hu => hwf u (by simp [hu])) h1
    refine ⟨s2, ?_, h2⟩
    rw [show (t :: ts).length = ts.length + 1 from rfl, readString32Array, e1]
    show (readString32Array ts.length s1 >>= _) = _
    rw [e2]
    rfl

/-! ### Corner records: packing and unpacking -/

theorem byte4Of_eq (c : Corner) (hr : c.ramp < 2) (hw : c.water < 2)
    (hbl : c.blight < 2) :
    byte4Of c = c.groundTexture % 16 + 16 * c.ramp + 32 * c.water +
      64 * c.blight + 128 * c.boundary := by
  rw [byte4Of, and15]
  rw [lor4 _ _ (Nat.mod_lt _ (by norm_num))]
  rw [lor5 _ _ (by omega)]
  rw [lor6 _ _ (by omega)]
  rw [lor7 _ _ (by omega)]

theorem byte5Of_eq (c : Corner) :
    byte5Of c = c.groundVariation % 32 + 32 * c.cliffVariation := by
  rw [byte5Of, and31, lor5 _ _ (Nat.mod_lt _ (by norm_num))]

theorem byte6Of_eq (c : Corner) :
    byte6Of c = c.cliffTexture % 16 + 16 * c.layerHeight := by
  rw [byte6Of, and15, lor4 _ _ (Nat.mod_lt _ (by norm_num))]

/-- A corner whose height fields are exactly representable in the raw
fixed-point ranges and whose packed fields are within their declared bit
widths. -/
def CornerWF (c : Corner) : Prop :=
  (∃ g : Nat, g < 65536 ∧ c.groundHeight = ((g : ℚ) - 8192) / 4) ∧
  (∃ w : Nat, w < 16384 ∧ c.waterHeight = ((w : ℚ) - 8192) / 4) ∧
  c.mapEdge < 4 ∧ c.ramp < 2 ∧ c.blight < 2 ∧ c.water < 2 ∧ c.boundary < 2 ∧
  c.groundTexture < 16 ∧ c.groundVariation < 32 ∧ c.cliffVariation < 8 ∧
  c.cliffTexture < 16 ∧ c.layerHeight < 16

theorem wordOf_toNat (c : Corner) (w : Nat) (hwlt : w < 16384)
    (hwh : c.waterHeight = ((w : ℚ) - 8192) / 4) (hme : c.mapEdge < 4) :
    ((wordOf c : Int)) % 65536 = (w + 16384 * c.mapEdge : Nat) := by
  have h14 : ((jsRound (c.waterHeight * 4 + 8192)) % 16384).toNat = w := by
    rw [hwh, jsRound_fixed]
    omega
  rw [wordOf, h14, lor14 w _ hwlt]
  omega

theorem decCorner_eq (width i : Nat) (c : Corner) (hWF : CornerWF c)
    (hidx : c.index = i) (hrow : c.rowid = i / width) (hcol : c.colid = i % width) :
    decCorner width i
      ((jsRound (c.groundHeight * 4 + 8192) % 65536).toNat)
      (((wordOf c : Int)) % 65536).toNat
      (byte4Of c % 256) (byte5Of c % 256) (byte6Of c % 256) = c := by
  obtain ⟨⟨g, hglt, hgh⟩, ⟨w, hwlt, hwh⟩, hme, hra, hbl, hwa, hbo, hgt, hgv, hcv,
    hct, hlh⟩ := hWF
  have hG : ((jsRound (c.groundHeight * 4 + 8192) % 65536).toNat) = g := by
    rw [hgh, jsRound_fixed]
    omega
  have hW : (((wordOf c : Int)) % 65536).toNat = w + 16384 * c.mapEdge := by
    rw [wordOf_toNat c w hwlt hwh hme]
    omega
  have hb4 : byte4Of c % 256 = c.groundTexture + 16 * c.ramp + 32 * c.water +
      64 * c.blight + 128 * c.boundary := by
    rw [byte4Of_eq c hra hwa hbl, Nat.mod_eq_of_lt hgt]
    omega
  have hb5 : byte5Of c % 256 = c.groundVariation + 32 * c.cliffVariation := by
    rw [byte5Of_eq c, Nat.mod_eq_of_lt hgv]
    omega
  have hb6 : byte6Of c % 256 = c.cliffTexture + 16 * c.layerHeight := by
    rw [byte6Of_eq c]
    omega
  apply Corner.ext
  · simp only [decCorner]
    exact hidx.symm
  · simp only [decCorner]
    exact hrow.symm
  · simp only [decCorner]
    exact hcol.symm
  · simp only [decCorner]
    rw [hG, hgh]
  · simp only [decCorner]
    rw [hW, and16383, hwh]
    have hmod : (w + 16384 * c.mapEdge) % 16384 = w := by omega
    rw [hmod]
  · simp only [decCorner]
    rw [hW, and49152shr14]
    omega
  · simp only [decCorner]
    rw [hb4, and16shr4]
    omega
  · simp only [decCorner]
    rw [hb4, and64shr6]
    omega
  · simp only [decCorner]
    rw [hb4, and32shr5]
    omega
  · simp only [decCorner]
    rw [hb4, and128shr7]
    omega
  · simp only [decCorner]
    rw [hb4, and15]
    omega
  · simp only [decCorner]
    rw [hb5, and31]
    omega
  · simp only [decCorner]
    rw [hb5, and224shr5]
    omega
  · simp only [decCorner]
    rw [hb6, and15]
    omega
  · simp only [decCorner]
    rw [hb6, and240shr4]
    omega

theorem readCornersAux_enc_spec (width : Nat) (cs : List Corner) :
    ∀ (i : Nat) (s : BitStream) (l : List Nat),
    (∀ c ∈ cs, CornerWF c) →
    (∀ j (hj : j < cs.length), (cs.get ⟨j, hj⟩).index = i + j ∧
      (cs.get ⟨j, hj⟩).rowid = (i + j) / width ∧
      (cs.get ⟨j, hj⟩).colid = (i + j) % width) →
    ReadState s (flatList encCornerBytes cs ++ l) →
    ∃ s2, readCornersAux width i cs.length s = .ok (cs, s2) ∧ ReadState s2 l := by
  induction cs with
  | nil =>
    intro i s l _ _ h
    exact ⟨s, rfl, by simpa [flatList] using h⟩
  | cons c cs ih =>
    intro i s l hwf hidx h
    have hsh : flatList encCornerBytes (c :: cs) ++ l
        = encU16 (jsRound (c.groundHeight * 4 + 8192)) ++ (encU16 (wordOf c) ++
          ((byte4Of c % 256) :: (byte5Of c % 256) :: (byte6Of c % 256) ::
            (flatList encCornerBytes cs ++ l))) := by
      simp [flatList, encCornerBytes]
    rw [hsh] at h
    obtain ⟨s1, e1, h1⟩ := readUInt16_enc_spec _ s _ h
    obtain ⟨s2, e2, h2⟩ := readUInt16_enc_spec _ s1 _ h1
    obtain ⟨s3, e3, h3⟩ := readUInt8_spec s2 _ _ h2
    obtain ⟨s4, e4, h4⟩ := readUInt8_spec s3 _ _ h3
    obtain ⟨s5, e5, h5⟩ := readUInt8_spec s4 _ _ h4
    obtain ⟨s6, e6, h6⟩ := ih (i + 1) s5 l
      (fun u hu => hwf u (List.mem_cons_of_mem c hu))
      (fun j hj => by
        have hj1 : j + 1 < (c :: cs).length := by simpa using Nat.succ_lt_succ hj
        have hstep := hidx (j + 1) hj1
        simpa [Nat.add_assoc, Nat.add_comm 1 j, Nat.add_left_comm] using hstep)
      h5
    refine ⟨s6, ?_, h6⟩
    have hc : c.index = i ∧ c.rowid = i / width ∧ c.colid = i % width := by
      have hstep := hidx 0 (by simp)
      simpa using hstep
    have hdec := decCorner_eq width i c (hwf c (List.mem_cons_self c cs))
      hc.1 hc.2.1 hc.2.2
    rw [show (c :: cs).length = cs.length + 1 from rfl, readCornersAux, e1]
    show (readUInt16 s1 >>= _) = _
    rw [e2]
    show (readUInt8 s2 >>= _) = _
    rw [e3]
    show (readUInt8 s3 >>= _) = _
    rw [e4]
    show (readUInt8 s4 >>= _) = _
    rw [e5]
    show (readCornersAux width (i + 1) cs.length s5 >>= _) = _
    rw [e6]
    show Except.ok (decCorner width i _ _ _ _ _ :: cs, s6) = Except.ok (c :: cs, s6)
    have hm4 : byte4Of c % 256 % 256 = byte4Of c % 256 := Nat.mod_mod_of_dvd _ dvd_rfl
    have hm5 : byte5Of c % 256 % 256 = byte5Of c % 256 := Nat.mod_mod_of_dvd _ dvd_rfl
    have hm6 : byte6Of c % 256 % 256 = byte6Of c % 256 := Nat.mod_mod_of_dvd _ dvd_rfl
    rw [hm4, hm5, hm6, hdec]

/-! ### Well-formed documents and the round trip -/

/-- A well-formed header: every scalar fits the width it is stored in, the
string fields have the lengths the format writes, and the two palette counts
agree with the palette lengths. -/
def HeaderWF (h : Header) : Prop :=
  TagWF h.fileId ∧ h.version < 4294967296 ∧
  h.baseTileset.length = 1 ∧ (∀ code ∈ h.baseTileset, code < 256) ∧
  h.hasCustomTileset < 4294967296 ∧
  h.tilePaletteCount = h.tilePalette.length ∧
  h.tilePalette.length < 4294967296 ∧ (∀ t ∈ h.tilePalette, TagWF t) ∧
  h.cliffTilePaletteCount = h.cliffTilePalette.length ∧
  h.cliffTilePalette.length < 4294967296 ∧ (∀ t ∈ h.cliffTilePalette, TagWF t) ∧
  h.width < 4294967296 ∧ h.height < 4294967296 ∧
  h.x < 4294967296 ∧ h.y < 4294967296

/-- A well-formed document: well-formed header, the corner list has exactly
`width * height` entries addressed row-major, and every corner is
well-formed. -/
def W3EWF (d : W3E) : Prop :=
  HeaderWF d.header ∧
  d.corners.length = d.header.width * d.header.height ∧
  (∀ j (hj : j < d.corners.length), (d.corners.get ⟨j, hj⟩).index = j ∧
    (d.corners.get ⟨j, hj⟩).rowid = j / d.header.width ∧
    (d.corners.get ⟨j, hj⟩).colid = j % d.header.width) ∧
  ∀ c ∈ d.corners, CornerWF c

theorem decodeW3e_encBytes (d : W3E) (h : W3EWF d) :
    decodeW3e (encBytes d) = .ok d := by
  obtain ⟨⟨hfid, hver, hbt1, hbtc, hhc, htpc, htpl, htpw, hctpc, hctpl, hctpw,
    hwid, hhei, hx, hy⟩, hlen, hidx, hcwf⟩ := h
  have hbt : ∃ cc, d.header.baseTileset = [cc] ∧ cc < 256 := by
    match hb : d.header.baseTileset, hbt1 with
    | [cc], _ => exact ⟨cc, rfl, by have := hbtc cc; simp [hb] at this; exact this⟩
  obtain ⟨cc, hbtEq, hccLt⟩ := hbt
  have hs0 : ReadState (BitStream.ofBuffer (encBytes d))
      (encTag d.header.fileId ++ (encU32 d.header.version ++
        ((d.header.baseTileset.getD 0 0 % 256) :: (encU32 d.header.hasCustomTileset ++
        (encU32 d.header.tilePaletteCount ++ (flatList encTag d.header.tilePalette ++
        (encU32 d.header.cliffTilePaletteCount ++ (flatList encTag d.header.cliffTilePalette ++
        (encU32 d.header.width ++ (encU32 d.header.height ++
        (encU32 d.header.x ++ (encU32 d.header.y ++
        (flatList encCornerBytes d.corners ++ ([] : List Nat)))))))))))))) := by
    refine ⟨rfl, ?_⟩
    show (bytesToBits (encBytes d)).drop 0 = _
    rw [List.drop_zero]
    congr 1
    simp [encBytes]
  obtain ⟨s1, e1, h1⟩ := readString32_enc_spec d.header.fileId _ _ hfid hs0
  obtain ⟨s2, e2, h2⟩ := readUInt32_enc_spec d.header.version s1 _ h1
  obtain ⟨s3, e3, h3⟩ := readString8_spec s2 _ _ h2
  obtain ⟨s4, e4, h4⟩ := readUInt32_enc_spec d.header.hasCustomTileset s3 _ h3
  obtain ⟨s5, e5, h5⟩ := readUInt32_enc_spec d.header.tilePaletteCount s4 _ h4
  obtain ⟨s6, e6, h6⟩ := readString32Array_enc_spec d.header.tilePalette s5 _ htpw h5
  obtain ⟨s7, e7, h7⟩ := readUInt32_enc_spec d.header.cliffTilePaletteCount s6 _ h6
  obtain ⟨s8, e8, h8⟩ := readString32Array_enc_spec d.header.cliffTilePalette s7 _ hctpw h7
  obtain ⟨s9, e9, h9⟩ := readUInt32_enc_spec d.header.width s8 _ h8
  obtain ⟨s10, e10, h10⟩ := readUInt32_enc_spec d.header.height s9 _ h9
  obtain ⟨s11, e11, h11⟩ := readFloat32_enc_spec d.header.x s10 _ h10
  obtain ⟨s12, e12, h12⟩ := readFloat32_enc_spec d.header.y s11 _ h11
  obtain ⟨s13, e13, h13⟩ := readCornersAux_enc_spec d.header.width d.corners 0 s12 []
    hcwf
    (fun j hj => by
      have hstep := hidx j hj
      simpa using hstep)
    h12
  have hbtv : d.header.baseTileset.getD 0 0 % 256 % 256 = cc := by
    rw [hbtEq]
    simp [Nat.mod_eq_of_lt hccLt]
  rw [decodeW3e, e1]
  show (readUInt32 s1 >>= _) = _
  rw [e2]
  show (readString8 s2 >>= _) = _
  rw [e3]
  show (readUInt32 s3 >>= _) = _
  rw [e4]
  show (readUInt32 s4 >>= _) = _
  rw [e5]
  show (readString32Array (d.header.tilePaletteCount % 4294967296) s5 >>= _) = _
  rw [show d.header.tilePaletteCount % 4294967296 = d.header.tilePalette.length by omega]
  rw [e6]
  show (readUInt32 s6 >>= _) = _
  rw [e7]
  show (readString32Array (d.header.cliffTilePaletteCount % 4294967296) s7 >>= _) = _
  rw [show d.header.cliffTilePaletteCount % 4294967296 = d.header.cliffTilePalette.length by omega]
  rw [e8]
  show (readUInt32 s8 >>= _) = _
  rw [e9]
  show (readUInt32 s9 >>= _) = _
  rw [e10]
  show (readFloat32 s10 >>= _) = _
  rw [e11]
  show (readFloat32 s11 >>= _) = _
  rw [e12]
  show (readCornersAux (d.header.width % 4294967296) 0
    (d.header.width % 4294967296 * (d.header.height % 4294967296)) s12 >>= _) = _
  rw [show d.header.width % 4294967296 = d.header.width by omega,
    show d.header.height % 4294967296 = d.header.height by omega,
    show d.header.width * d.header.height = d.corners.length by omega]
  rw [e13]
  show Except.ok _ = Except.ok d
  rw [hbtv]
  congr 1
  rw [show d.header.version % 4294967296 = d.header.version by omega,
    show d.header.hasCustomTileset % 4294967296 = d.header.hasCustomTileset by omega,
    show d.header.x % 4294967296 = d.header.x by omega,
    show d.header.y % 4294967296 = d.header.y by omega,
    ← htpc, ← hctpc, ← hbtEq]

/-- The round trip at the heart of the codec: encoding a well-formed
document and decoding the resulting buffer returns the document
unchanged. -/
theorem except_ok_bind {α β : Type} (a : α) (f : α → Except StreamError β) :
    (Except.ok a >>= f) = f a := rfl

theorem roundtrip_wf (d : W3E) (h : W3EWF d) :
    (encodeW3e d >>= decodeW3e) = .ok d := by
  rw [encodeW3e_eq d, except_ok_bind, decodeW3e_encBytes d h]

/-! ### In read mode, every read succeeds (there is no end-of-input check) -/

theorem readUBits_ok (s : BitStream) (n : Nat) (h : s.isWriting = false) :
    ∃ v s2, readUBits s n = .ok (v, s2) ∧ s2.isWriting = false := by
  refine ⟨(readBitsLoop s.bits 0 s.bitPosition n).1,
    { s with bitPosition := (readBitsLoop s.bits 0 s.bitPosition n).2 }, ?_, h⟩
  rw [readUBits, if_neg (by simp [h])]

theorem readUInt8_ok (s : BitStream) (h : s.isWriting = false) :
    ∃ v s2, readUInt8 s = .ok (v, s2) ∧ s2.isWriting = false :=
  readUBits_ok s 8 h

theorem readUInt16_ok (s : BitStream) (h : s.isWriting = false) :
    ∃ v s2, readUInt16 s = .ok (v, s2) ∧ s2.isWriting = false := by
  obtain ⟨v0, s1, e1, h1⟩ := readUBits_ok s 8 h
  obtain ⟨v1, s2, e2, h2⟩ := readUBits_ok s1 8 h1
  refine ⟨v0 ||| (v1 <<< 8), s2, ?_, h2⟩
  rw [readUInt16, e1]
  show (readUBits s1 8 >>= _) = _
  rw [e2]
  rfl

theorem readUInt32_ok (s : BitStream) (h : s.isWriting = false) :
    ∃ v s2, readUInt32 s = .ok (v, s2) ∧ s2.isWriting = false := by
  obtain ⟨v0, s1, e1, h1⟩ := readUBits_ok s 8 h
  obtain ⟨v1, s2, e2, h2⟩ := readUBits_ok s1 8 h1
  obtain ⟨v2, s3, e3, h3⟩ := readUBits_ok s2 8 h2
  obtain ⟨v3, s4, e4, h4⟩ := readUBits_ok s3 8 h3
  refine ⟨v0 ||| (v1 <<< 8) ||| (v2 <<< 16) ||| (v3 <<< 24), s4, ?_, h4⟩
  rw [readUInt32, e1]
  show (readUBits s1 8 >>= _) = _
  rw [e2]
  show (readUBits s2 8 >>= _) = _
  rw [e3]
  show (readUBits s3 8 >>= _) = _
  rw [e4]
  rfl

theorem readFloat32_ok (s : BitStream) (h : s.isWriting = false) :
    ∃ v s2, readFloat32 s = .ok (v, s2) ∧ s2.isWriting = false := by
  obtain ⟨v0, s1, e1, h1⟩ := readUBits_ok s 8 h
  obtain ⟨v1, s2, e2, h2⟩ := readUBits_ok s1 8 h1
  obtain ⟨v2, s3, e3, h3⟩ := readUBits_ok s2 8 h2
  obtain ⟨v3, s4, e4, h4⟩ := readUBits_ok s3 8 h3
  refine ⟨v0 ||| (v1 <<< 8) ||| (v2 <<< 16) ||| (v3 <<< 24), s4, ?_, h4⟩
  rw [readFloat32, e1]
  show (readUBits s1 8 >>= _) = _
  rw [e2]
  show (readUBits s2 8 >>= _) = _
  rw [e3]
  show (readUBits s3 8 >>= _) = _
  rw [e4]
  rfl

theorem readString8_ok (s : BitStream) (h : s.isWriting = false) :
    ∃ v s2, readString8 s = .ok (v, s2) ∧ s2.isWriting = false := by
  obtain ⟨v0, s1, e1, h1⟩ := readUBits_ok s 8 h
  refine ⟨[v0], s1, ?_, h1⟩
  rw [readString8, e1]
  rfl

theorem readString32_ok (s : BitStream) (h : s.isWriting = false) :
    ∃ v s2, readString32 s = .ok (v, s2) ∧ s2.isWriting = false := by
  obtain ⟨v0, s1, e1, h1⟩ := readUBits_ok s 8 h
  obtain ⟨v1, s2, e2, h2⟩ := readUBits_ok s1 8 h1
  obtain ⟨v2, s3, e3, h3⟩ := readUBits_ok s2 8 h2
  obtain ⟨v3, s4, e4, h4⟩ := readUBits_ok s3 8 h3
  refine ⟨[v0, v1, v2, v3], s4, ?_, h4⟩
  rw [readString32, e1]
  show (readUBits s1 8 >>= _) = _
  rw [e2]
  show (readUBits s2 8 >>= _) = _
  rw [e3]
  show (readUBits s3 8 >>= _) = _
  rw [e4]
  rfl

theorem readString32Array_ok (n : Nat) :
    ∀ (s : BitStream), s.isWriting = false →
    ∃ ts s2, readString32Array n s = .ok (ts, s2) ∧ s2.isWriting = false := by
  induction n with
  | zero => intro s h; exact ⟨[], s, rfl, h⟩
  | succ n ih =>
    intro s h
    obtain ⟨t, s1, e1, h1⟩ := readString32_ok s h
    obtain ⟨ts, s2, e2, h2⟩ := ih s1 h1
    refine ⟨t :: ts, s2, ?_, h2⟩
    rw [readString32Array, e1]
    show (readString32Array n s1 >>= _) = _
    rw [e2]
    rfl

/-- Bounds and addressing of every corner record built by the decoder,
whatever five values were read. -/
theorem decCorner_bounds (width i a b x y z : Nat) :
    (decCorner width i a b x y z).index = i ∧
    (decCorner width i a b x y z).rowid = i / width ∧
    (decCorner width i a b x y z).colid = i % width ∧
    (decCorner width i a b x y z).mapEdge < 4 ∧
    (decCorner width i a b x y z).ramp < 2 ∧
    (decCorner width i a b x y z).water < 2 ∧
    (decCorner width i a b x y z).blight < 2 ∧
    (decCorner width i a b x y z).boundary < 2 ∧
    (decCorner width i a b x y z).groundTexture < 16 ∧
    (decCorner width i a b x y z).groundVariation < 32 ∧
    (decCorner width i a b x y z).cliffVariation < 8 ∧
    (decCorner width i a b x y z).cliffTexture < 16 ∧
    (decCorner width i a b x y z).layerHeight < 16 := by
  refine ⟨?_, ?_, ?_, ?_, ?_, ?_, ?_, ?_, ?_, ?_, ?_, ?_, ?_⟩ <;>
    simp only [decCorner, and49152shr14, and16shr4, and32shr5, and64shr6,
      and128shr7, and15, and31, and224shr5, and240shr4] <;>
    omega

/-- The property asserted of every decoded corner list: row-major
addressing starting at index `i`, and every packed field within its declared
bit width. -/
def CornerInv (width i : Nat) (cs : List Corner) : Prop :=
  ∀ j (hj : j < cs.length),
    (cs.get ⟨j, hj⟩).index = i + j ∧
    (cs.get ⟨j, hj⟩).rowid = (i + j) / width ∧
    (cs.get ⟨j, hj⟩).colid = (i + j) % width ∧
    (cs.get ⟨j, hj⟩).mapEdge < 4 ∧
    (cs.get ⟨j, hj⟩).ramp < 2 ∧
    (cs.get ⟨j, hj⟩).water < 2 ∧
    (cs.get ⟨j, hj⟩).blight < 2 ∧
    (cs.get ⟨j, hj⟩).boundary < 2 ∧
    (cs.get ⟨j, hj⟩).groundTexture < 16 ∧
    (cs.get ⟨j, hj⟩).groundVariation < 32 ∧
    (cs.get ⟨j, hj⟩).cliffVariation < 8 ∧
    (cs.get ⟨j, hj⟩).cliffTexture < 16 ∧
    (cs.get ⟨j, hj⟩).layerHeight < 16

theorem readCornersAux_inv (width n : Nat) :
    ∀ (i : Nat) (s : BitStream), s.isWriting = false →
    ∃ cs s2, readCornersAux width i n s = .ok (cs, s2) ∧ s2.isWriting = false ∧
      cs.length = n ∧ CornerInv width i cs := by
  induction n with
  | zero =>
    intro i s h
    exact ⟨[], s, rfl, h, rfl, fun j hj => by simp at hj⟩
  | succ n ih =>
    intro i s h
    obtain ⟨vG, s1, e1, h1⟩ := readUInt16_ok s h
    obtain ⟨vW, s2, e2, h2⟩ := readUInt16_ok s1 h1
    obtain ⟨b4, s3, e3, h3⟩ := readUInt8_ok s2 h2
    obtain ⟨b5, s4, e4, h4⟩ := readUInt8_ok s3 h3
    obtain ⟨b6, s5, e5, h5⟩ := readUInt8_ok s4 h4
    obtain ⟨cs, s6, e6, h6, hlen, hinv⟩ := ih (i + 1) s5 h5
    refine ⟨decCorner width i vG vW b4 b5 b6 :: cs, s6, ?_, h6, by simp [hlen], ?_⟩
    · rw [readCornersAux, e1]
      show (readUInt16 s1 >>= _) = _
      rw [e2]
      show (readUInt8 s2 >>= _) = _
      rw [e3]
      show (readUInt8 s3 >>= _) = _
      rw [e4]
      show (readUInt8 s4 >>= _) = _
      rw [e5]
      show (readCornersAux width (i + 1) n s5 >>= _) = _
      rw [e6]
      rfl
    · intro j hj
      match j, hj with
      | 0, _ =>
        have hb := decCorner_bounds width i vG vW b4 b5 b6
        simpa using hb
      | j + 1, hj =>
        have hj2 : j < cs.length := by simpa using hj
        have hstep := hinv j hj2
        have hshift : i + 1 + j = i + (j + 1) := by omega
        simpa [hshift] using hstep

theorem decodeW3e_ok (buffer : List Nat) :
    ∃ d, decodeW3e buffer = .ok d ∧
      d.corners.length = d.header.width * d.header.height ∧
      CornerInv d.header.width 0 d.corners := by
  have h0 : (BitStream.ofBuffer buffer).isWriting = false := rfl
  obtain ⟨fid, s1, e1, h1⟩ := readString32_ok _ h0
  obtain ⟨ver, s2, e2, h2⟩ := readUInt32_ok s1 h1
  obtain ⟨bt, s3, e3, h3⟩ := readString8_ok s2 h2
  obtain ⟨hcu, s4, e4, h4⟩ := readUInt32_ok s3 h3
  obtain ⟨tpc, s5, e5, h5⟩ := readUInt32_ok s4 h4
  obtain ⟨tp, s6, e6, h6⟩ := readString32Array_ok tpc s5 h5
  obtain ⟨ctpc, s7, e7, h7⟩ := readUInt32_ok s6 h6
  obtain ⟨ctp, s8, e8, h8⟩ := readString32Array_ok ctpc s7 h7
  obtain ⟨wid, s9, e9, h9⟩ := readUInt32_ok s8 h8
  obtain ⟨hei, s10, e10, h10⟩ := readUInt32_ok s9 h9
  obtain ⟨xv, s11, e11, h11⟩ := readFloat32_ok s10 h10
  obtain ⟨yv, s12, e12, h12⟩ := readFloat32_ok s11 h11
  obtain ⟨cs, s13, e13, h13, hlen, hinv⟩ := readCornersAux_inv wid (wid * hei) 0 s12 h12
  refine ⟨⟨⟨fid, ver, bt, hcu, tpc, tp, ctpc, ctp, wid, hei, xv, yv⟩, cs⟩, ?_, ?_, ?_⟩
  · rw [decodeW3e, e1]
    show (readUInt32 s1 >>= _) = _
    rw [e2]
    show (readString8 s2 >>= _) = _
    rw [e3]
    show (readUInt32 s3 >>= _) = _
    rw [e4]
    show (readUInt32 s4 >>= _) = _
    rw [e5]
    show (readString32Array tpc s5 >>= _) = _
    rw [e6]
    show (readUInt32 s6 >>= _) = _
    rw [e7]
    show (readString32Array ctpc s7 >>= _) = _
    rw [e8]
    show (readUInt32 s8 >>= _) = _
    rw [e9]
    show (readUInt32 s9 >>= _) = _
    rw [e10]
    show (readFloat32 s10 >>= _) = _
    rw [e11]
    show (readFloat32 s11 >>= _) = _
    rw [e12]
    show (readCornersAux wid 0 (wid * hei) s12 >>= _) = _
    rw [e13]
    rfl
  · simpa using hlen
  · simpa using hinv

theorem decodeW3e_fileId (buffer : List Nat) (hlen : 4 ≤ buffer.length)
    (hb : ∀ b ∈ buffer, b < 256) :
    ∃ d, decodeW3e buffer = .ok d ∧ d.header.fileId = buffer.take 4 := by
  match buffer, hlen with
  | b0 :: b1 :: b2 :: b3 :: rest, _ =>
    have hs0 : ReadState (BitStream.ofBuffer (b0 :: b1 :: b2 :: b3 :: rest))
        (b0 :: b1 :: b2 :: b3 :: rest) := ⟨rfl, by
      show (bytesToBits (b0 :: b1 :: b2 :: b3 :: rest)).drop 0 = _
      rw [List.drop_zero]⟩
    obtain ⟨s1, e1, h1⟩ := readString32_spec _ b0 b1 b2 b3 rest hs0
    have h1w : s1.isWriting = false := h1.1
    obtain ⟨ver, s2, e2, h2⟩ := readUInt32_ok s1 h1w
    obtain ⟨bt, s3, e3, h3⟩ := readString8_ok s2 h2
    obtain ⟨hcu, s4, e4, h4⟩ := readUInt32_ok s3 h3
    obtain ⟨tpc, s5, e5, h5⟩ := readUInt32_ok s4 h4
    obtain ⟨tp, s6, e6, h6⟩ := readString32Array_ok tpc s5 h5
    obtain ⟨ctpc, s7, e7, h7⟩ := readUInt32_ok s6 h6
    obtain ⟨ctp, s8, e8, h8⟩ := readString32Array_ok ctpc s7 h7
    obtain ⟨wid, s9, e9, h9⟩ := readUInt32_ok s8 h8
    obtain ⟨hei, s10, e10, h10⟩ := readUInt32_ok s9 h9
    obtain ⟨xv, s11, e11, h11⟩ := readFloat32_ok s10 h10
    obtain ⟨yv, s12, e12, h12⟩ := readFloat32_ok s11 h11
    obtain ⟨cs, s13, e13, h13, hlen13, hinv⟩ := readCornersAux_inv wid (wid * hei) 0 s12 h12
    have hm0 : b0 % 256 = b0 := Nat.mod_eq_of_lt (hb b0 (by simp))
    have hm1 : b1 % 256 = b1 := Nat.mod_eq_of_lt (hb b1 (by simp))
    have hm2 : b2 % 256 = b2 := Nat.mod_eq_of_lt (hb b2 (by simp))
    have hm3 : b3 % 256 = b3 := Nat.mod_eq_of_lt (hb b3 (by simp))
    refine ⟨⟨⟨[b0 % 256, b1 % 256, b2 % 256, b3 % 256], ver, bt, hcu, tpc, tp,
      ctpc, ctp, wid, hei, xv, yv⟩, cs⟩, ?_, ?_⟩
    · rw [decodeW3e, e1]
      show (readUInt32 s1 >>= _) = _
      rw [e2]
      show (readString8 s2 >>= _) = _
      rw [e3]
      show (readUInt32 s3 >>= _) = _
      rw [e4]
      show (readUInt32 s4 >>= _) = _
      rw [e5]
      show (readString32Array tpc s5 >>= _) = _
      rw [e6]
      show (readUInt32 s6 >>= _) = _
      rw [e7]
      show (readString32Array ctpc s7 >>= _) = _
      rw [e8]
      show (readUInt32 s8 >>= _) = _
      rw [e9]
      show (readUInt32 s9 >>= _) = _
      rw [e10]
      show (readFloat32 s10 >>= _) = _
      rw [e11]
      show (readFloat32 s11 >>= _) = _
      rw [e12]
      show (readCornersAux wid 0 (wid * hei) s12 >>= _) = _
      rw [e13]
      rfl
    · show [b0 % 256, b1 % 256, b2 % 256, b3 % 256] = _
      rw [hm0, hm1, hm2, hm3]
      rfl

theorem flatList_length {f : α → List β} {k : Nat} (hf : ∀ x, (f x).length = k)
    (l : List α) : (flatList f l).length = k * l.length := by
  induction l with
  | nil => simp [flatList]
  | cons x xs ih =>
    simp [flatList, ih, hf x]
    ring

theorem encTag_length (t : List Nat) : (encTag t).length = 4 := rfl

theorem encCornerBytes_length (c : Corner) : (encCornerBytes c).length = 7 := rfl

theorem encBytes_length (d : W3E) :
    (encBytes d).length = 37 +
      4 * (d.header.tilePalette.length + d.header.cliffTilePalette.length) +
      7 * d.corners.length := by
  simp [encBytes, encTag, encU32, flatList_length encTag_length,
    flatList_length encCornerBytes_length]
  ring

/-! ### Concrete documents used by the testable properties -/

deriving instance DecidableEq for Except

/-- The header of the concrete scenario of the spec: tag "W3ER", version 11,
base tileset letter O, palettes ["Oaby"] / ["Oclm"], the given grid size and
origin.  `x` is the IEEE-754 bit pattern of -128.0f, `y` of 0.0f. -/
def hdr7 (width height : Nat) (x y : Nat) : Header :=
  { fileId := [87, 51, 69, 82]
    version := 11
    baseTileset := [79]
    hasCustomTileset := 0
    tilePaletteCount := 1
    tilePalette := [[79, 97, 98, 121]]
    cliffTilePaletteCount := 1
    cliffTilePalette := [[79, 99, 108, 109]]
    width := width
    height := height
    x := x
    y := y }

/-- A 1-by-1 document around a single corner. -/
def mk1 (c : Corner) : W3E := { header := hdr7 1 1 0 0, corners := [c] }

/-- The all-zero corner (at grid position 0). -/
def c0 : Corner :=
  { index := 0, rowid := 0, colid := 0, groundHeight := 0, waterHeight := 0,
    mapEdge := 0, ramp := 0, blight := 0, water := 0, boundary := 0,
    groundTexture := 0, groundVariation := 0, cliffVariation := 0,
    cliffTexture := 0, layerHeight := 0 }

/-- The corner of the spec's concrete 2-by-1 scenario. -/
def c7 (i col : Nat) : Corner :=
  { index := i, rowid := 0, colid := col, groundHeight := 0, waterHeight := 0,
    mapEdge := 0, ramp := 0, blight := 0, water := 0, boundary := 0,
    groundTexture := 3, groundVariation := 0, cliffVariation := 0,
    cliffTexture := 0, layerHeight := 2 }

/-- The document of the spec's concrete 2-by-1 scenario. -/
def d7 : W3E := { header := hdr7 2 1 0xC3000000 0, corners := [c7 0 0, c7 1 1] }

theorem cornerWF_zero_heights (c : Corner) (hg : c.groundHeight = 0)
    (hw : c.waterHeight = 0) (h3 : c.mapEdge < 4) (h4 : c.ramp < 2)
    (h5 : c.blight < 2) (h6 : c.water < 2) (h7 : c.boundary < 2)
    (h8 : c.groundTexture < 16) (h9 : c.groundVariation < 32)
    (h10 : c.cliffVariation < 8) (h11 : c.cliffTexture < 16)
    (h12 : c.layerHeight < 16) : CornerWF c :=
  ⟨⟨8192, by norm_num, by rw [hg]; norm_num⟩,
    ⟨8192, by norm_num, by rw [hw]; norm_num⟩,
    h3, h4, h5, h6, h7, h8, h9, h10, h11, h12⟩

theorem hdr7_wf (width height x y : Nat) (hw : width < 4294967296)
    (hh : height < 4294967296) (hx : x < 4294967296) (hy : y < 4294967296) :
    HeaderWF (hdr7 width height x y) := by
  refine ⟨?_, ?_, ?_, ?_, ?_, ?_, ?_, ?_, ?_, ?_, ?_, hw, hh, hx, hy⟩ <;>
    simp only [hdr7, TagWF] <;> decide

theorem mk1_wf (c : Corner) (hc : CornerWF c) (h0 : c.index = 0)
    (h1 : c.rowid = 0) (h2 : c.colid = 0) : W3EWF (mk1 c) := by
  refine ⟨hdr7_wf 1 1 0 0 (by norm_num) (by norm_num) (by norm_num) (by norm_num),
    rfl, ?_, ?_⟩
  · intro j hj
    match j, hj with
    | 0, _ =>
      refine ⟨h0, ?_, ?_⟩
      · rw [show ((mk1 c).corners.get ⟨0, by simp [mk1]⟩).rowid = c.rowid from rfl, h1]
        simp [mk1, hdr7]
      · rw [show ((mk1 c).corners.get ⟨0, by simp [mk1]⟩).colid = c.colid from rfl, h2]
        simp [mk1, hdr7]
  · intro u hu
    have : u = c := by simpa [mk1] using hu
    rw [this]
    exact hc

theorem d7_wf : W3EWF d7 := by
  refine ⟨hdr7_wf 2 1 0xC3000000 0 (by norm_num) (by norm_num) (by norm_num)
    (by norm_num), rfl, by decide, ?_⟩
  intro u hu
  have hu2 : u = c7 0 0 ∨ u = c7 1 1 := by simpa [d7] using hu
  rcases hu2 with h | h <;> rw [h] <;>
    exact cornerWF_zero_heights _ rfl rfl (by decide) (by decide) (by decide)
      (by decide) (by decide) (by decide) (by decide) (by decide) (by decide)
      (by decide)

set_option maxRecDepth 8000 in
theorem encBytes_d7 : encBytes d7 =
    [87, 51, 69, 82, 11, 0, 0, 0, 79, 0, 0, 0, 0, 1, 0, 0, 0, 79, 97, 98, 121,
     1, 0, 0, 0, 79, 99, 108, 109, 2, 0, 0, 0, 1, 0, 0, 0, 0, 0, 0, 195,
     0, 0, 0, 0, 0, 32, 0, 32, 3, 0, 32, 0, 32, 0, 32, 3, 0, 32] := by
  norm_num [encBytes, d7, hdr7, c7, flatList, encCornerBytes, encU16, encU32,
    encTag, wordOf, byte4Of, byte5Of, byte6Of, jsRound]
  decide

/-- The document produced by decoding the empty buffer: every header read
returns 0 from zero available bits, both palettes are empty, and the corner
grid is 0 by 0. -/
def dEmptyDecoded : W3E :=
  { header :=
      { fileId := [0, 0, 0, 0]
        version := 0
        baseTileset := [0]
        hasCustomTileset := 0
        tilePaletteCount := 0
        tilePalette := []
        cliffTilePaletteCount := 0
        cliffTilePalette := []
        width := 0
        height := 0
        x := 0
        y := 0 }
    corners := [] }

/-! ### Claim theorems -/

/-- C1: for every terrain document whose count fields are internally
consistent and whose field values lie in their declared ranges (palette
counts equal to palette lengths, strings of the written lengths with
single-byte codes, scalars within their stored widths, heights exactly
representable in the raw fixed-point ranges, `width * height` corners
addressed row-major), decoding the encoding returns the document
field-for-field, including `tilePaletteCount` and `cliffTilePaletteCount`. -/
theorem c1_roundtrip (d : W3E) (h : W3EWF d) :
    (encodeW3e d >>= decodeW3e) = .ok d :=
  roundtrip_wf d h

theorem c1_roundtrip_witness : (encodeW3e d7 >>= decodeW3e) = .ok d7 :=
  c1_roundtrip d7 d7_wf

set_option maxRecDepth 8000 in
/-- C2 (counterexample to the claim as stated): decoding the concrete 2-by-1
scenario buffer truncated to 50 bytes — cut off after the third byte of the
second corner record — does not fail with any error: it succeeds, returning
a document whose second corner is filled from zero bits (groundTexture 0,
layerHeight 0 where the document had 3 and 2). -/
theorem c2_counterexample :
    ((encodeW3e d7).map (fun l => l.take 50) >>= decodeW3e).map
      (fun d => d.corners.map (fun c => (c.index, c.groundTexture, c.layerHeight)))
      = .ok [(0, 3, 0), (1, 0, 0)] := by
  rw [encodeW3e_eq, encBytes_d7]
  decide

/-- C2 (amended): the stream layer never signals reading past the end of the
buffer — the bit-read loop stops early and returns the value assembled from
the bits that exist — so `decodeW3e` succeeds on every buffer, including
buffers truncated mid-schema, returning a document whose missing fields
decode from zero bits.  No `UnexpectedEndOfInput` error exists in the
code. -/
theorem c2_decode_never_fails (buffer : List Nat) :
    ∃ d, decodeW3e buffer = .ok d := by
  obtain ⟨d, hd, _, _⟩ := decodeW3e_ok buffer
  exact ⟨d, hd⟩

/-- C7 (counterexample to the claim as stated): the encoded buffer of the
concrete 2-by-1 scenario has 59 bytes, not 45: the per-corner record is 7
bytes (two u16 for the heights word pair plus three packed bytes), and the
header alone is 45 bytes. -/
theorem c7_counterexample : (encodeW3e d7).map List.length ≠ .ok 45 := by
  have h59 : (encodeW3e d7).map List.length = .ok 59 := by
    rw [encodeW3e_eq]
    show Except.ok (encBytes d7).length = _
    rw [encBytes_length]
    norm_num [d7, hdr7]
  rw [h59]
  decide

/-- C7 (amended): for the concrete 2-by-1 scenario document, `encodeW3e`
produces a buffer of exactly 59 bytes (45 header bytes plus 2 corners of 7
bytes each), and decoding that buffer yields `groundTexture = 3` at both
corner indices. -/
theorem c7_concrete_scenario :
    (encodeW3e d7).map List.length = .ok 59 ∧
    (encodeW3e d7 >>= decodeW3e).map
      (fun d => d.corners.map Corner.groundTexture) = .ok [3, 3] := by
  constructor
  · rw [encodeW3e_eq]
    show Except.ok (encBytes d7).length = _
    rw [encBytes_length]
    norm_num [d7, hdr7]
  · rw [roundtrip_wf d7 d7_wf]
    rfl

/-- C9: `decodeW3e` never validates the 4-byte file tag: decoding succeeds
whatever the first 4 bytes are, and they are stored verbatim in the returned
document's `fileId` field. -/
theorem c9_fileId_ignored (buffer : List Nat) (hlen : 4 ≤ buffer.length)
    (hb : ∀ b ∈ buffer, b < 256) :
    ∃ d, decodeW3e buffer = .ok d ∧ d.header.fileId = buffer.take 4 :=
  decodeW3e_fileId buffer hlen hb

theorem c9_fileId_ignored_witness :
    ∃ d, decodeW3e [1, 2, 3, 4] = .ok d ∧
      d.header.fileId = ([1, 2, 3, 4] : List Nat).take 4 :=
  c9_fileId_ignored [1, 2, 3, 4] (by decide) (by decide)

/-- C10: every document returned by `decodeW3e` satisfies the structural
invariant: `corners.length = width * height`, and corner `j` has
`index = j`, `rowid = j / width`, `colid = j % width`, with every unpacked
bitfield within its declared range, regardless of the input buffer. -/
theorem c10_decode_invariants (buffer : List Nat) (d : W3E)
    (h : decodeW3e buffer = .ok d) :
    d.corners.length = d.header.width * d.header.height ∧
    ∀ j (hj : j < d.corners.length),
      (d.corners.get ⟨j, hj⟩).index = j ∧
      (d.corners.get ⟨j, hj⟩).rowid = j / d.header.width ∧
      (d.corners.get ⟨j, hj⟩).colid = j % d.header.width ∧
      (d.corners.get ⟨j, hj⟩).mapEdge < 4 ∧
      (d.corners.get ⟨j, hj⟩).ramp < 2 ∧
      (d.corners.get ⟨j, hj⟩).water < 2 ∧
      (d.corners.get ⟨j, hj⟩).blight < 2 ∧
      (d.corners.get ⟨j, hj⟩).boundary < 2 ∧
      (d.corners.get ⟨j, hj⟩).groundTexture < 16 ∧
      (d.corners.get ⟨j, hj⟩).groundVariation < 32 ∧
      (d.corners.get ⟨j, hj⟩).cliffVariation < 8 ∧
      (d.corners.get ⟨j, hj⟩).cliffTexture < 16 ∧
      (d.corners.get ⟨j, hj⟩).layerHeight < 16 := by
  obtain ⟨d0, e0, hl, hinv⟩ := decodeW3e_ok buffer
  rw [h] at e0
  have hd : d = d0 := Except.ok.inj e0
  subst hd
  refine ⟨hl, fun j hj => ?_⟩
  have hstep := hinv j hj
  simpa using hstep

theorem c10_decode_invariants_witness :
    dEmptyDecoded.corners.length =
      dEmptyDecoded.header.width * dEmptyDecoded.header.height ∧
    ∀ j (hj : j < dEmptyDecoded.corners.length),
      (dEmptyDecoded.corners.get ⟨j, hj⟩).index = j ∧
      (dEmptyDecoded.corners.get ⟨j, hj⟩).rowid = j / dEmptyDecoded.header.width ∧
      (dEmptyDecoded.corners.get ⟨j, hj⟩).colid = j % dEmptyDecoded.header.width ∧
      (dEmptyDecoded.corners.get ⟨j, hj⟩).mapEdge < 4 ∧
      (dEmptyDecoded.corners.get ⟨j, hj⟩).ramp < 2 ∧
      (dEmptyDecoded.corners.get ⟨j, hj⟩).water < 2 ∧
      (dEmptyDecoded.corners.get ⟨j, hj⟩).blight < 2 ∧
      (dEmptyDecoded.corners.get ⟨j, hj⟩).boundary < 2 ∧
      (dEmptyDecoded.corners.get ⟨j, hj⟩).groundTexture < 16 ∧
      (dEmptyDecoded.corners.get ⟨j, hj⟩).groundVariation < 32 ∧
      (dEmptyDecoded.corners.get ⟨j, hj⟩).cliffVariation < 8 ∧
      (dEmptyDecoded.corners.get ⟨j, hj⟩).cliffTexture < 16 ∧
      (dEmptyDecoded.corners.get ⟨j, hj⟩).layerHeight < 16 :=
  c10_decode_invariants [] dEmptyDecoded (by decide)

/-! ### C5: one field at its maximum, all others zero -/

def cMaxGH : Corner := { c0 with groundHeight := ((65535 : ℚ) - 8192) / 4 }

def cMaxWH : Corner := { c0 with waterHeight := ((16383 : ℚ) - 8192) / 4 }

def cMaxME : Corner := { c0 with mapEdge := 3 }

def cMaxRA : Corner := { c0 with ramp := 1 }

def cMaxWA : Corner := { c0 with water := 1 }

def cMaxBL : Corner := { c0 with blight := 1 }

def cMaxBO : Corner := { c0 with boundary := 1 }

def cMaxGT : Corner := { c0 with groundTexture := 15 }

def cMaxGV : Corner := { c0 with groundVariation := 31 }

def cMaxCV : Corner := { c0 with cliffVariation := 7 }

def cMaxCT : Corner := { c0 with cliffTexture := 15 }

def cMaxLH : Corner := { c0 with layerHeight := 15 }

theorem cMaxGH_wf : CornerWF cMaxGH :=
  ⟨⟨65535, by norm_num, rfl⟩,
    ⟨8192, by norm_num, by show (0 : ℚ) = ((8192 : ℚ) - 8192) / 4; norm_num⟩,
    by decide, by decide, by decide, by decide, by decide, by decide,
    by decide, by decide, by decide, by decide⟩

theorem cMaxWH_wf : CornerWF cMaxWH :=
  ⟨⟨8192, by norm_num, by show (0 : ℚ) = ((8192 : ℚ) - 8192) / 4; norm_num⟩,
    ⟨16383, by norm_num, rfl⟩,
    by decide, by decide, by decide, by decide, by decide, by decide,
    by decide, by decide, by decide, by decide⟩

/-- C5: for each Corner field, the document with that one field at its
maximum representable value and every other corner field 0 is reproduced
exactly by encode-then-decode; in particular all the other corner fields
come back 0 (no bit of one field leaks into another across the 7-byte
record). -/
theorem c5_bitfield_isolation :
    (encodeW3e (mk1 cMaxGH) >>= decodeW3e) = .ok (mk1 cMaxGH) ∧
    (encodeW3e (mk1 cMaxWH) >>= decodeW3e) = .ok (mk1 cMaxWH) ∧
    (encodeW3e (mk1 cMaxME) >>= decodeW3e) = .ok (mk1 cMaxME) ∧
    (encodeW3e (mk1 cMaxRA) >>= decodeW3e) = .ok (mk1 cMaxRA) ∧
    (encodeW3e (mk1 cMaxWA) >>= decodeW3e) = .ok (mk1 cMaxWA) ∧
    (encodeW3e (mk1 cMaxBL) >>= decodeW3e) = .ok (mk1 cMaxBL) ∧
    (encodeW3e (mk1 cMaxBO) >>= decodeW3e) = .ok (mk1 cMaxBO) ∧
    (encodeW3e (mk1 cMaxGT) >>= decodeW3e) = .ok (mk1 cMaxGT) ∧
    (encodeW3e (mk1 cMaxGV) >>= decodeW3e) = .ok (mk1 cMaxGV) ∧
    (encodeW3e (mk1 cMaxCV) >>= decodeW3e) = .ok (mk1 cMaxCV) ∧
    (encodeW3e (mk1 cMaxCT) >>= decodeW3e) = .ok (mk1 cMaxCT) ∧
    (encodeW3e (mk1 cMaxLH) >>= decodeW3e) = .ok (mk1 cMaxLH) := by
  refine ⟨roundtrip_wf _ (mk1_wf _ cMaxGH_wf rfl rfl rfl),
    roundtrip_wf _ (mk1_wf _ cMaxWH_wf rfl rfl rfl), ?_, ?_, ?_, ?_, ?_, ?_,
    ?_, ?_, ?_, ?_⟩ <;>
  exact roundtrip_wf _ (mk1_wf _ (cornerWF_zero_heights _ rfl rfl (by decide)
    (by decide) (by decide) (by decide) (by decide) (by decide) (by decide)
    (by decide) (by decide) (by decide)) rfl rfl rfl)

/-! ### C6: mapEdge with the full 14-bit water range -/

def cEW (e w : Nat) : Corner :=
  { c0 with mapEdge := e, waterHeight := ((w : ℚ) - 8192) / 4 }

/-- C6: for every `mapEdge` in 0..3 and every raw 14-bit water height in
0..16383, encode-then-decode reproduces the document exactly — in
particular the `mapEdge` value comes back unchanged even when the water
raw value uses the full 14-bit range. -/
theorem c6_mapEdge_full_water (e w : Nat) (he : e < 4) (hw : w < 16384) :
    (encodeW3e (mk1 (cEW e w)) >>= decodeW3e) = .ok (mk1 (cEW e w)) ∧
    (mk1 (cEW e w)).corners.map Corner.mapEdge = [e] := by
  refine ⟨roundtrip_wf _ (mk1_wf _ ?_ rfl rfl rfl), rfl⟩
  exact ⟨⟨8192, by norm_num, by show (0 : ℚ) = ((8192 : ℚ) - 8192) / 4; norm_num⟩,
    ⟨w, hw, rfl⟩, he,
    show (0 : Nat) < 2 by decide, show (0 : Nat) < 2 by decide,
    show (0 : Nat) < 2 by decide, show (0 : Nat) < 2 by decide,
    show (0 : Nat) < 16 by decide, show (0 : Nat) < 32 by decide,
    show (0 : Nat) < 8 by decide, show (0 : Nat) < 16 by decide,
    show (0 : Nat) < 16 by decide⟩

theorem c6_mapEdge_full_water_witness :
    (encodeW3e (mk1 (cEW 3 16383)) >>= decodeW3e) = .ok (mk1 (cEW 3 16383)) ∧
    (mk1 (cEW 3 16383)).corners.map Corner.mapEdge = [3] :=
  c6_mapEdge_full_water 3 16383 (by decide) (by decide)

/-! ### C8: mode enforcement -/

/-- C8 (counterexample to the claim as stated): `readString32Array` with
count 0 performs no primitive read, so it succeeds on a write-bound stream;
symmetrically `writeString32Array` with an empty array succeeds on a
read-bound stream.  The claimed "every read operation invoked on a
write-bound instance fails" is therefore false for these zero-length
operations. -/
theorem c8_counterexample :
    readString32Array 0 BitStream.newWriter = .ok ([], BitStream.newWriter) ∧
    writeString32Array [] (BitStream.ofBuffer [1, 2, 3])
      = .ok (BitStream.ofBuffer [1, 2, 3]) ∧
    BitStream.newWriter.isWriting = true ∧
    (BitStream.ofBuffer [1, 2, 3]).isWriting = false :=
  ⟨rfl, rfl, rfl, rfl⟩

/-- C8 (amended): the mode flag fixed at construction is enforced by every
operation that touches the stream: every primitive read on a write-bound
instance fails with the read-mode violation error (and hence every composite
read, and `readString32Array` for any nonzero count); every primitive write
on a read-bound instance fails with the write-mode violation error (and
hence every composite write, `writeString32Array` for any nonempty array,
and buffer growth); `getBuffer` on a read-bound instance fails likewise.
Only the two zero-length array operations return without touching the
stream. -/
theorem c8_mode_enforced (sw sr : BitStream) (hw : sw.isWriting = true)
    (hr : sr.isWriting = false) (n v : Nat) (t : List Nat)
    (ts : List (List Nat)) :
    readUBits sw n = .error .readInWriteMode ∧
    readUInt8 sw = .error .readInWriteMode ∧
    readUInt16 sw = .error .readInWriteMode ∧
    readUInt32 sw = .error .readInWriteMode ∧
    readFloat32 sw = .error .readInWriteMode ∧
    readString8 sw = .error .readInWriteMode ∧
    readString32 sw = .error .readInWriteMode ∧
    readString32Array (n + 1) sw = .error .readInWriteMode ∧
    writeUBits v n sr = .error .writeInReadMode ∧
    writeUInt8 v sr = .error .writeInReadMode ∧
    writeUInt16 (v : Int) sr = .error .writeInReadMode ∧
    writeUInt32 v sr = .error .writeInReadMode ∧
    writeFloat32 v sr = .error .writeInReadMode ∧
    writeString8 t sr = .error .writeInReadMode ∧
    writeString32 t sr = .error .writeInReadMode ∧
    writeString32Array (t :: ts) sr = .error .writeInReadMode ∧
    getBuffer sr = .error .bufferInReadMode := by
  have hR : ∀ m, readUBits sw m = .error .readInWriteMode := fun m => by
    rw [readUBits, if_pos hw]
  have hW : ∀ x m, writeUBits x m sr = .error .writeInReadMode := fun x m => by
    rw [writeUBits]
    rw [if_neg (by simp [hr])]
  have hR32 : readString32 sw = .error .readInWriteMode := by
    rw [readString32, hR 8]
    rfl
  refine ⟨hR n, hR 8, ?_, ?_, ?_, ?_, hR32, ?_, hW v n, hW v 8, ?_, ?_, ?_,
    ?_, ?_, ?_, ?_⟩
  · rw [readUInt16, hR 8]
    rfl
  · rw [readUInt32, hR 8]
    rfl
  · rw [readFloat32, hR 8]
    rfl
  · rw [readString8, hR 8]
    rfl
  · rw [readString32Array, hR32]
    rfl
  · rw [writeUInt16, hW _ 8]
    rfl
  · rw [writeUInt32, hW _ 8]
    rfl
  · rw [writeFloat32, hW _ 8]
    rfl
  · rw [writeString8, hW _ 8]
  · rw [writeString32]
    rw [show writeString8 [t.getD 0 0] sr = writeUBits (t.getD 0 0) 8 sr from rfl,
      hW _ 8]
    rfl
  · rw [writeString32Array]
    rw [show writeString32 t sr = (writeString8 [t.getD 0 0] sr >>= _) from rfl]
    rw [show writeString8 [t.getD 0 0] sr = writeUBits (t.getD 0 0) 8 sr from rfl,
      hW _ 8]
    rfl
  · rw [getBuffer]
    rw [if_neg (by simp [hr])]

theorem c8_mode_enforced_witness :
    readUBits BitStream.newWriter 0 = .error .readInWriteMode ∧
    readUInt8 BitStream.newWriter = .error .readInWriteMode ∧
    readUInt16 BitStream.newWriter = .error .readInWriteMode ∧
    readUInt32 BitStream.newWriter = .error .readInWriteMode ∧
    readFloat32 BitStream.newWriter = .error .readInWriteMode ∧
    readString8 BitStream.newWriter = .error .readInWriteMode ∧
    readString32 BitStream.newWriter = .error .readInWriteMode ∧
    readString32Array (0 + 1) BitStream.newWriter = .error .readInWriteMode ∧
    writeUBits 0 0 (BitStream.ofBuffer []) = .error .writeInReadMode ∧
    writeUInt8 0 (BitStream.ofBuffer []) = .error .writeInReadMode ∧
    writeUInt16 ((0 : Nat) : Int) (BitStream.ofBuffer []) = .error .writeInReadMode ∧
    writeUInt32 0 (BitStream.ofBuffer []) = .error .writeInReadMode ∧
    writeFloat32 0 (BitStream.ofBuffer []) = .error .writeInReadMode ∧
    writeString8 [] (BitStream.ofBuffer []) = .error .writeInReadMode ∧
    writeString32 [] (BitStream.ofBuffer []) = .error .writeInReadMode ∧
    writeString32Array [[]] (BitStream.ofBuffer []) = .error .writeInReadMode ∧
    getBuffer (BitStream.ofBuffer []) = .error .bufferInReadMode :=
  c8_mode_enforced BitStream.newWriter (BitStream.ofBuffer []) rfl rfl 0 0 [] []

/-! ### C3: deterministic masking of out-of-range field values -/

theorem encU16_congr (v1 v2 : Int) (h : v1 % 65536 = v2 % 65536) :
    encU16 v1 = encU16 v2 := by
  simp [encU16, h]

theorem encCornerBytes_congr2 (c1 c2 : Corner)
    (hg : jsRound (c1.groundHeight * 4 + 8192) % 65536
      = jsRound (c2.groundHeight * 4 + 8192) % 65536)
    (hw : (wordOf c1 : Int) % 65536 = (wordOf c2 : Int) % 65536)
    (h4 : byte4Of c1 % 256 = byte4Of c2 % 256)
    (h5 : byte5Of c1 % 256 = byte5Of c2 % 256)
    (h6 : byte6Of c1 % 256 = byte6Of c2 % 256) :
    encCornerBytes c1 = encCornerBytes c2 := by
  simp only [encCornerBytes, encU16, hg, hw, h4, h5, h6]

theorem encBytes_mk1_congr (c1 c2 : Corner)
    (h : encCornerBytes c1 = encCornerBytes c2) :
    encBytes (mk1 c1) = encBytes (mk1 c2) := by
  simp [encBytes, mk1, flatList, h]

/-- A single corner at the origin with all-zero heights and the ten packed
fields free. -/
def packCorner (me ra bl wa bo gt gv cv ct lh : Nat) : Corner :=
  { index := 0, rowid := 0, colid := 0, groundHeight := 0, waterHeight := 0,
    mapEdge := me, ramp := ra, blight := bl, water := wa, boundary := bo,
    groundTexture := gt, groundVariation := gv, cliffVariation := cv,
    cliffTexture := ct, layerHeight := lh }

theorem packCorner_bytes (me ra bl wa bo gt gv cv ct lh : Nat)
    (hra : ra < 2) (hwa : wa < 2) (hbl : bl < 2) :
    encCornerBytes (packCorner me ra bl wa bo gt gv cv ct lh)
      = encCornerBytes (packCorner (me % 4) ra bl wa (bo % 2) (gt % 16)
          (gv % 32) (cv % 8) (ct % 16) (lh % 16)) := by
  apply encCornerBytes_congr2
  · rfl
  · have hj1 : jsRound
        ((packCorner me ra bl wa bo gt gv cv ct lh).waterHeight * 4 + 8192)
        = 8192 := by
      show jsRound ((0 : ℚ) * 4 + 8192) = 8192
      norm_num [jsRound]
    have hj2 : jsRound ((packCorner (me % 4) ra bl wa (bo % 2) (gt % 16)
        (gv % 32) (cv % 8) (ct % 16) (lh % 16)).waterHeight * 4 + 8192)
        = 8192 := by
      show jsRound ((0 : ℚ) * 4 + 8192) = 8192
      norm_num [jsRound]
    simp only [wordOf, hj1, hj2]
    rw [show ((8192 : Int) % 16384).toNat = 8192 by decide]
    rw [lor14 8192 _ (by norm_num), lor14 8192 _ (by norm_num)]
    simp only [packCorner]
    omega
  · rw [byte4Of_eq _ hra hwa hbl, byte4Of_eq _ hra hwa hbl]
    simp only [packCorner]
    omega
  · rw [byte5Of_eq, byte5Of_eq]
    simp only [packCorner]
    omega
  · rw [byte6Of_eq, byte6Of_eq]
    simp only [packCorner]
    omega

/-- C3 (counterexample to the claim as stated): the claim says an
out-of-range `ramp` value does not change any other field's stored bits, but
`ramp` is shifted into byte 4 without masking: with `ramp = 2` and every
other corner field 0, the stored byte has bit 5 set, which decodes as
`water = 1` — a neighboring field's bit was changed (and `ramp` itself
decodes as 0). -/
theorem c3_counterexample :
    ((encodeW3e (mk1 (packCorner 0 2 0 0 0 0 0 0 0 0)) >>= decodeW3e).map
      (fun d => d.corners.map (fun c => (c.ramp, c.water))))
      = .ok [(0, 1)] := by
  have hbytes : encCornerBytes (packCorner 0 2 0 0 0 0 0 0 0 0)
      = encCornerBytes (packCorner 0 0 0 1 0 0 0 0 0 0) := by
    apply encCornerBytes_congr2
    · rfl
    · rfl
    · rw [show byte4Of (packCorner 0 2 0 0 0 0 0 0 0 0) = 32 by decide,
        show byte4Of (packCorner 0 0 0 1 0 0 0 0 0 0) = 32 by decide]
    · rfl
    · rfl
  have henc := encBytes_mk1_congr _ _ hbytes
  rw [encodeW3e_eq, except_ok_bind, henc]
  rw [decodeW3e_encBytes _ (mk1_wf _ (cornerWF_zero_heights _ rfl rfl
    (by decide) (by decide) (by decide) (by decide) (by decide) (by decide)
    (by decide) (by decide) (by decide) (by decide)) rfl rfl rfl)]
  rfl

/-- C3 (amended): on encode, `groundTexture`, `groundVariation`,
`cliffTexture` and the raw water height are masked explicitly, and
`boundary`, `cliffVariation`, `layerHeight` and `mapEdge` sit in the top
bits of their byte or word, so out-of-range values of those fields are
truncated deterministically to their bit width without touching any other
field; but `ramp`, `water` and `blight` are shifted without masking into the
middle of byte 4, so the deterministic-masking guarantee only holds when
they are within range.  Formally: for in-range `ramp`, `water`, `blight`
(and values below 2^16, within the int32-faithful range of the embedding),
encode-then-decode returns the document with every packed field reduced
modulo its bit width. -/
theorem c3_masking (me ra bl wa bo gt gv cv ct lh : Nat)
    (hra : ra < 2) (hwa : wa < 2) (hbl : bl < 2)
    (_hme : me < 65536) (_hbo : bo < 65536) (_hgt : gt < 65536)
    (_hgv : gv < 65536) (_hcv : cv < 65536) (_hct : ct < 65536)
    (_hlh : lh < 65536) :
    (encodeW3e (mk1 (packCorner me ra bl wa bo gt gv cv ct lh)) >>= decodeW3e)
      = .ok (mk1 (packCorner (me % 4) ra bl wa (bo % 2) (gt % 16) (gv % 32)
          (cv % 8) (ct % 16) (lh % 16))) := by
  have hbytes := packCorner_bytes me ra bl wa bo gt gv cv ct lh hra hwa hbl
  have henc := encBytes_mk1_congr _ _ hbytes
  rw [encodeW3e_eq, except_ok_bind, henc]
  exact decodeW3e_encBytes _ (mk1_wf _ (cornerWF_zero_heights _ rfl rfl
    (show me % 4 < 4 by omega) hra hbl hwa (show bo % 2 < 2 by omega)
    (show gt % 16 < 16 by omega) (show gv % 32 < 32 by omega)
    (show cv % 8 < 8 by omega) (show ct % 16 < 16 by omega)
    (show lh % 16 < 16 by omega)) rfl rfl rfl)

theorem c3_masking_witness :
    (encodeW3e (mk1 (packCorner 5 1 1 1 3 100 100 100 100 100)) >>= decodeW3e)
      = .ok (mk1 (packCorner (5 % 4) 1 1 1 (3 % 2) (100 % 16) (100 % 32)
          (100 % 8) (100 % 16) (100 % 16))) :=
  c3_masking 5 1 1 1 3 100 100 100 100 100 (by decide) (by decide) (by decide)
    (by decide) (by decide) (by decide) (by decide) (by decide) (by decide)
    (by decide)

/-! ### C4: fixed-point height rounding -/

theorem jsRound_fixed_int (r : Int) :
    jsRound (((r : ℚ) - 8192) / 4 * 4 + 8192) = r := by
  have h : (((r : ℚ) - 8192) / 4 * 4 + 8192) = ((r : ℚ)) := by ring
  rw [h, jsRound_intCast]

/-- A 1-by-1 document whose single corner has the given heights and all
packed fields 0. -/
def heightDoc (gh wh : ℚ) : W3E :=
  mk1 { c0 with groundHeight := gh, waterHeight := wh }

/-- C4: encoding then decoding a document's heights goes through the raw
transforms `raw = round(h * 4 + 8192)` (rounding half up, the JavaScript
`Math.round`) on encode and `h = (raw - 8192) / 4` on decode: the decoded
heights are exactly `(round(h * 4 + 8192) - 8192) / 4`; a height that is an
exact multiple of 0.25 (whose raw value is representable) is reproduced
exactly, and every other height comes back as a multiple of 0.25 within 1/8
of the original, i.e. the nearest multiple of 0.25 (ties rounding up). -/
theorem c4_height_rounding (gh wh : ℚ)
    (hg0 : 0 ≤ jsRound (gh * 4 + 8192)) (hg1 : jsRound (gh * 4 + 8192) < 65536)
    (hw0 : 0 ≤ jsRound (wh * 4 + 8192)) (hw1 : jsRound (wh * 4 + 8192) < 16384) :
    (encodeW3e (heightDoc gh wh) >>= decodeW3e) = .ok (heightDoc
        (((jsRound (gh * 4 + 8192) : ℚ) - 8192) / 4)
        (((jsRound (wh * 4 + 8192) : ℚ) - 8192) / 4)) ∧
    ((∃ m : ℤ, gh * 4 = m) →
      (((jsRound (gh * 4 + 8192) : ℚ) - 8192) / 4) = gh) ∧
    ((∃ m : ℤ, wh * 4 = m) →
      (((jsRound (wh * 4 + 8192) : ℚ) - 8192) / 4) = wh) ∧
    |(((jsRound (gh * 4 + 8192) : ℚ) - 8192) / 4) - gh| ≤ 1 / 8 ∧
    |(((jsRound (wh * 4 + 8192) : ℚ) - 8192) / 4) - wh| ≤ 1 / 8 := by
  refine ⟨?_, ?_, ?_, ?_, ?_⟩
  · have hc1g : ({ c0 with groundHeight := gh, waterHeight := wh } : Corner).groundHeight
        = gh := rfl
    have hc2 : heightDoc (((jsRound (gh * 4 + 8192) : ℚ) - 8192) / 4)
        (((jsRound (wh * 4 + 8192) : ℚ) - 8192) / 4)
        = mk1 { c0 with
            groundHeight := ((jsRound (gh * 4 + 8192) : ℚ) - 8192) / 4,
            waterHeight := ((jsRound (wh * 4 + 8192) : ℚ) - 8192) / 4 } := rfl
    rw [hc2]
    have hbytes : encCornerBytes ({ c0 with groundHeight := gh, waterHeight := wh } : Corner)
        = encCornerBytes { c0 with
            groundHeight := ((jsRound (gh * 4 + 8192) : ℚ) - 8192) / 4,
            waterHeight := ((jsRound (wh * 4 + 8192) : ℚ) - 8192) / 4 } := by
      apply encCornerBytes_congr2
      · rw [show ({ c0 with groundHeight := gh, waterHeight := wh } : Corner).groundHeight
            = gh from rfl,
          show ({ c0 with
              groundHeight := ((jsRound (gh * 4 + 8192) : ℚ) - 8192) / 4,
              waterHeight := ((jsRound (wh * 4 + 8192) : ℚ) - 8192) / 4 } : Corner).groundHeight
            = ((jsRound (gh * 4 + 8192) : ℚ) - 8192) / 4 from rfl,
          jsRound_fixed_int]
      · simp only [wordOf]
        rw [jsRound_fixed_int]
      · rfl
      · rfl
      · rfl
    have henc := encBytes_mk1_congr _ _ hbytes
    rw [encodeW3e_eq, except_ok_bind]
    rw [show encBytes (heightDoc gh wh) = encBytes (mk1 ({ c0 with groundHeight := gh, waterHeight := wh } : Corner)) from rfl]
    rw [henc]
    refine decodeW3e_encBytes _ (mk1_wf _ ?_ rfl rfl rfl)
    refine ⟨⟨(jsRound (gh * 4 + 8192)).toNat, by omega, ?_⟩,
      ⟨(jsRound (wh * 4 + 8192)).toNat, by omega, ?_⟩,
      show (0 : Nat) < 4 by decide, show (0 : Nat) < 2 by decide,
      show (0 : Nat) < 2 by decide, show (0 : Nat) < 2 by decide,
      show (0 : Nat) < 2 by decide, show (0 : Nat) < 16 by decide,
      show (0 : Nat) < 32 by decide, show (0 : Nat) < 8 by decide,
      show (0 : Nat) < 16 by decide, show (0 : Nat) < 16 by decide⟩
    · show ((jsRound (gh * 4 + 8192) : ℚ) - 8192) / 4
        = (((jsRound (gh * 4 + 8192)).toNat : ℚ) - 8192) / 4
      congr 2
      rw [show (((jsRound (gh * 4 + 8192)).toNat : Nat) : ℚ)
          = (((jsRound (gh * 4 + 8192)).toNat : ℤ) : ℚ) by push_cast; ring,
        Int.toNat_of_nonneg hg0]
    · show ((jsRound (wh * 4 + 8192) : ℚ) - 8192) / 4
        = (((jsRound (wh * 4 + 8192)).toNat : ℚ) - 8192) / 4
      congr 2
      rw [show (((jsRound (wh * 4 + 8192)).toNat : Nat) : ℚ)
          = (((jsRound (wh * 4 + 8192)).toNat : ℤ) : ℚ) by push_cast; ring,
        Int.toNat_of_nonneg hw0]
  · rintro ⟨m, hm⟩
    have h1 : gh * 4 + 8192 = ((m + 8192 : ℤ) : ℚ) := by push_cast; linarith
    rw [h1, jsRound_intCast]
    push_cast
    linarith
  · rintro ⟨m, hm⟩
    have h1 : wh * 4 + 8192 = ((m + 8192 : ℤ) : ℚ) := by push_cast; linarith
    rw [h1, jsRound_intCast]
    push_cast
    linarith
  · have hle := Int.floor_le (gh * 4 + 8192 + 1 / 2)
    have hlt := Int.lt_floor_add_one (gh * 4 + 8192 + 1 / 2)
    rw [abs_le]
    simp only [jsRound]
    constructor <;> linarith
  · have hle := Int.floor_le (wh * 4 + 8192 + 1 / 2)
    have hlt := Int.lt_floor_add_one (wh * 4 + 8192 + 1 / 2)
    rw [abs_le]
    simp only [jsRound]
    constructor <;> linarith

theorem jsRound_third : jsRound ((1 : ℚ) / 3 * 4 + 8192) = 8193 := by
  norm_num [jsRound]

theorem jsRound_zero_height : jsRound ((0 : ℚ) * 4 + 8192) = 8192 := by
  norm_num [jsRound]

theorem c4_height_rounding_witness :
    (encodeW3e (heightDoc (1 / 3) 0) >>= decodeW3e) = .ok (heightDoc
        (((jsRound ((1 : ℚ) / 3 * 4 + 8192) : ℚ) - 8192) / 4)
        (((jsRound ((0 : ℚ) * 4 + 8192) : ℚ) - 8192) / 4)) ∧
    ((∃ m : ℤ, (1 : ℚ) / 3 * 4 = m) →
      (((jsRound ((1 : ℚ) / 3 * 4 + 8192) : ℚ) - 8192) / 4) = 1 / 3) ∧
    ((∃ m : ℤ, (0 : ℚ) * 4 = m) →
      (((jsRound ((0 : ℚ) * 4 + 8192) : ℚ) - 8192) / 4) = 0) ∧
    |(((jsRound ((1 : ℚ) / 3 * 4 + 8192) : ℚ) - 8192) / 4) - 1 / 3| ≤ 1 / 8 ∧
    |(((jsRound ((0 : ℚ) * 4 + 8192) : ℚ) - 8192) / 4) - 0| ≤ 1 / 8 :=
  c4_height_rounding (1 / 3) 0
    (by rw [jsRound_third]; decide) (by rw [jsRound_third]; decide)
    (by rw [jsRound_zero_height]; decide) (by rw [jsRound_zero_height]; decide)

end W3eGen
